import Mathlib

/-!
Verification of the script-normalization pipeline, the document composer and
the execution worker of the nova-ai-windows-llite repository against its
specification.

The Python sources are shallowly embedded: every pass of
`script_runner.ScriptRunner` becomes a pure function on `String` /
`List String`, the stateful `hwp_controller.HwpController` composer becomes
explicit state passing over a `CState` record together with a trace of
document-sink operations, and `gui_app.TypingWorker.run` becomes a recursion
over the job queue parameterised by an outcome oracle.

Python string conventions (`str.strip`, `str.lstrip`, regex `\s`) are
modelled by `pyIsSpace`, covering ASCII whitespace and the Unicode
whitespace characters Python treats as space.  Regex character classes
`\d` / `\w` are modelled over the character ranges that occur in this
pipeline's domain: ASCII alphanumerics, underscore, and Hangul.
-/

/-! ## Python string primitives -/

/-- Characters Python's `str.strip` / regex `\s` treat as whitespace. -/
def pyIsSpace (c : Char) : Bool :=
  c = ' ' || c = '\t' || c = '\n' || c = '\r' || c = '\x0b' || c = '\x0c' ||
  c = '\x1c' || c = '\x1d' || c = '\x1e' || c = '\x1f' ||
  c = '\x85' || c = '\xa0' || c.toNat = 0x1680 ||
  (0x2000 ≤ c.toNat && c.toNat ≤ 0x200a) ||
  c.toNat = 0x2028 || c.toNat = 0x2029 || c.toNat = 0x202f || c.toNat = 0x205f ||
  c.toNat = 0x3000

/-- Python regex `\w` over the character classes this pipeline's inputs use:
ASCII alphanumerics, underscore, Hangul compatibility jamo and syllables. -/
def pyIsWordCh (c : Char) : Bool :=
  c.isAlphanum || c = '_' ||
  (0x3131 ≤ c.toNat && c.toNat ≤ 0x318e) || (0xac00 ≤ c.toNat && c.toNat ≤ 0xd7a3)

/-- Drop whitespace from the end of a character list. -/
def dropSpaceEnd (l : List Char) : List Char :=
  (l.reverse.dropWhile pyIsSpace).reverse

/-- Python `str.strip()` on a character list. -/
def pyStripL (l : List Char) : List Char :=
  dropSpaceEnd (l.dropWhile pyIsSpace)

/-- Python `str.strip()`. -/
def pyStrip (s : String) : String := (pyStripL s.toList).asString

/-- Python `str.lstrip()`. -/
def pyLStrip (s : String) : String := (s.toList.dropWhile pyIsSpace).asString

/-- Character-list version of `str.startswith`: is `pat` a leading run of `s`. -/
def chIsPre : List Char → List Char → Bool
  | [], _ => true
  | _ :: _, [] => false
  | p :: ps, c :: cs => p = c && chIsPre ps cs

/-- Python `s.startswith(pat)`. -/
def strStarts (s pat : String) : Bool := chIsPre pat.toList s.toList

/-- Python `s.endswith(pat)`. -/
def strEnds (s pat : String) : Bool := chIsPre pat.toList.reverse s.toList.reverse

/-- Substring occurrence over character lists (Python `pat in s`). -/
def chContains (pat : List Char) : List Char → Bool
  | [] => chIsPre pat []
  | c :: rest => chIsPre pat (c :: rest) || chContains pat rest

/-- Python `pat in s`. -/
def strContains (s pat : String) : Bool := chContains pat.toList s.toList

/-- Python `s.count(q)` for a single character `q`. -/
def chCount (q : Char) (l : List Char) : Nat := l.countP (· = q)

/-- Quote occurrences that are not backslash-escaped
(`_count_unescaped` in `ScriptRunner._repair_multiline_calls`). -/
def countUnescaped (q : Char) : List Char → Bool → Nat
  | [], _ => 0
  | c :: rest, escaped =>
    if escaped then countUnescaped q rest false
    else if c = '\\' then countUnescaped q rest true
    else if c = q then countUnescaped q rest false + 1
    else countUnescaped q rest false

/-- Python `s.split("\n")` on a character list. -/
def splitNl : List Char → List (List Char)
  | [] => [[]]
  | c :: rest =>
    match splitNl rest with
    | [] => [[]]
    | l :: ls => if c = '\n' then [] :: l :: ls else (c :: l) :: ls

/-- Python `s.split("\n")`. -/
def strSplitNl (s : String) : List String := (splitNl s.toList).map List.asString

/-- Python `"\n".join(lines)`. -/
def strJoinNl (ls : List String) : String := String.intercalate "\n" ls

/-- Chomp an exact leading pattern, returning the remainder. -/
def chompPre (pat : List Char) (s : List Char) : Option (List Char) :=
  if chIsPre pat s then some (s.drop pat.length) else none

/-- Chomp one exact character. -/
def chompChar (c : Char) : List Char → Option (List Char)
  | x :: rest => if x = c then some rest else none
  | [] => none

/-! ## ScriptRunner._strip_code_markers -/

/-- Lines dropped by `_strip_code_markers`. -/
def isCodeMarkerLine (l : String) : Bool :=
  pyStrip l = "[CODE]" || pyStrip l = "[/CODE]" || pyStrip l = "CODE"

/-- `ScriptRunner._strip_code_markers`: drop `[CODE]` / `[/CODE]` / `CODE` lines. -/
def strip_code_markers (script : String) : String :=
  strJoinNl ((strSplitNl script).filter (fun l => !(isCodeMarkerLine l)))

/-! ## ScriptRunner._sanitize_multiline_strings -/

/-- Character scan of `_sanitize_multiline_strings`: newline-class characters
inside an open quote become spaces; an unterminated quote is closed at the end. -/
def sanMulti : List Char → Option Char → Bool → List Char
  | [], qc, _ => match qc with | some q => [q] | none => []
  | c :: rest, qc, escaped =>
    if escaped then c :: sanMulti rest qc false
    else if c = '\\' then c :: sanMulti rest qc true
    else if c = '\'' || c = '"' then
      match qc with
      | none => c :: sanMulti rest (some c) false
      | some q => if q = c then c :: sanMulti rest none false else c :: sanMulti rest qc false
    else if (c = '\n' || c = '\r' || c.toNat = 0x2028 || c.toNat = 0x2029) && qc.isSome then
      ' ' :: sanMulti rest qc false
    else c :: sanMulti rest qc false

/-- `ScriptRunner._sanitize_multiline_strings`. -/
def sanitize_multiline_strings (s : String) : String :=
  (sanMulti s.toList none false).asString

/-! ## ScriptRunner._normalize_inline_calls -/

/-- Target call heads of `_normalize_inline_calls`. -/
def inlineTargets : List String :=
  ["insert_text(", "insert_equation(", "insert_latex_equation("]

/-- Position scan of `_normalize_inline_calls` over the remaining characters,
carrying `in_call`, `quote_char` and `quote_open`. -/
def normInline : List Char → Bool → Option Char → Bool → List Char
  | [], inCall, qc, qopen =>
    if inCall && qopen then [(match qc with | some q => q | none => '\''), ')'] else []
  | c :: rest, inCall0, qc0, qopen0 =>
    let inCall := if !inCall0 && (inlineTargets.any fun t => chIsPre t.toList (c :: rest))
      then true else inCall0
    if inCall then
      let qs : Option Char × Bool :=
        if c = '\'' || c = '"' then
          match qc0 with
          | none => (some c, true)
          | some q =>
            if q = c then (if qopen0 then (none, false) else (some q, true))
            else (qc0, qopen0)
        else (qc0, qopen0)
      if c = '\n' || c = '\r' || c.toNat = 0x2028 || c.toNat = 0x2029 then
        ' ' :: normInline rest inCall qs.1 qs.2
      else if c = ')' && !qs.2 then
        c :: normInline rest false qs.1 qs.2
      else
        c :: normInline rest inCall qs.1 qs.2
    else c :: normInline rest inCall0 qc0 qopen0

/-- `ScriptRunner._normalize_inline_calls`. -/
def normalize_inline_calls (s : String) : String :=
  (normInline s.toList false none false).asString

/-! ## ScriptRunner._sanitize_unterminated_equation_strings -/

/-- Per-line fix of `_sanitize_unterminated_equation_strings`. -/
def fixUnterminatedLine (line : String) : String :=
  if strContains line "insert_equation('" && chCount '\'' line.toList % 2 = 1 then line ++ "')"
  else if strContains line "insert_equation(\"" && chCount '"' line.toList % 2 = 1 then line ++ "\")"
  else line

/-- `ScriptRunner._sanitize_unterminated_equation_strings`. -/
def sanitize_unterminated_equation_strings (s : String) : String :=
  strJoinNl ((strSplitNl s).map fixUnterminatedLine)

/-! ## ScriptRunner._normalize_primes_in_equations

Each `re.sub` of the helper `_fix` is hand-compiled to a left-to-right
scanner with the same match/skip discipline as Python's `re.sub`: at each
position try the pattern; on success emit the replacement and resume after
the matched text; on failure copy one character.  Scanners that skip a
variable number of characters take a fuel argument (one unit per consumed
character, so `length + 1` fuel is never exhausted); fuel is only a
termination device. -/

/-- ASCII letter (regex `[A-Za-z]`). -/
def isAsciiLetter (c : Char) : Bool := c.isAlpha

/-- Replace the Unicode primes U+2032 and U+2019 by an apostrophe
(the two `str.replace` calls of `_fix`). -/
def replacePrimeChars (l : List Char) : List Char :=
  l.map fun c => if c.toNat = 0x2032 || c.toNat = 0x2019 then '\'' else c

/-- Chomp `prime` case-insensitively. -/
def chompPrimeCI : List Char → Option (List Char)
  | p :: r :: i :: m :: e :: rest =>
    if p.toLower = 'p' && r.toLower = 'r' && i.toLower = 'i' && m.toLower = 'm' &&
       e.toLower = 'e' then some rest else none
  | _ => none

/-- Negative lookahead `(?![A-Za-z])`. -/
def notLetterAhead : List Char → Bool
  | [] => true
  | d :: _ => !(isAsciiLetter d)

/-- Negative lookahead for a word character (regex `\b` after a word char). -/
def notWordAhead : List Char → Bool
  | [] => true
  | d :: _ => !(pyIsWordCh d)

/-- `re.sub(r"\\+prime\b", "'", s, flags=IGNORECASE)`. -/
def subBackslashPrime : Nat → List Char → List Char
  | 0, l => l
  | _, [] => []
  | fuel + 1, c :: rest =>
    if c = '\\' then
      let after := rest.dropWhile (· = '\\')
      match chompPrimeCI after with
      | some rest2 =>
        if notWordAhead rest2 then '\'' :: subBackslashPrime fuel rest2
        else c :: subBackslashPrime fuel rest
      | none => c :: subBackslashPrime fuel rest
    else c :: subBackslashPrime fuel rest

/-- `re.sub(r"\\'+", "'", s)` (drop escaped apostrophes). -/
def subEscapedApos : Nat → List Char → List Char
  | 0, l => l
  | _, [] => []
  | fuel + 1, c :: rest =>
    if c = '\\' then
      match rest with
      | '\'' :: _ => '\'' :: subEscapedApos fuel (rest.dropWhile (· = '\''))
      | _ => c :: subEscapedApos fuel rest
    else c :: subEscapedApos fuel rest

/-- `re.sub(r"([A-Za-z])\\(?![A-Za-z])", r"\1'", s)`. -/
def subLetterBackslash : List Char → List Char
  | [] => []
  | c :: rest =>
    if isAsciiLetter c && chIsPre ['\\'] rest && notLetterAhead (rest.drop 1) then
      c :: '\'' :: subLetterBackslash (rest.drop 1)
    else c :: subLetterBackslash rest
termination_by l => l.length
decreasing_by all_goals simp [List.length_cons, List.length_drop] <;> omega

/-- The word boundary `\b` before `rm`: the previous character, if any, is
not a word character. -/
def rmBoundary : Option Char → Bool
  | none => true
  | some p => !(pyIsWordCh p)

/-- `re.sub(r"\brm\s*([A-Za-z])\s*\\(?![A-Za-z])", r"rm\1'", s)`. -/
def subRmLetterBackslash : Nat → Option Char → List Char → List Char
  | 0, _, l => l
  | _, _, [] => []
  | fuel + 1, prev, c :: rest =>
    (if rmBoundary prev && c = 'r' then
      match rest with
      | 'm' :: rest2 =>
        match rest2.dropWhile pyIsSpace with
        | l1 :: rest4 =>
          if isAsciiLetter l1 then
            match rest4.dropWhile pyIsSpace with
            | '\\' :: rest6 =>
              if notLetterAhead rest6 then
                some ('r' :: 'm' :: l1 :: '\'' :: subRmLetterBackslash fuel (some '\\') rest6)
              else none
            | _ => none
          else none
        | [] => none
      | _ => none
    else none).getD (c :: subRmLetterBackslash fuel (some c) rest)

/-- `re.sub(r"\brm\s*F\s*'", "rm F prime", s)`. -/
def subRmFApos : Nat → Option Char → List Char → List Char
  | 0, _, l => l
  | _, _, [] => []
  | fuel + 1, prev, c :: rest =>
    (if rmBoundary prev && c = 'r' then
      match rest with
      | 'm' :: rest2 =>
        match rest2.dropWhile pyIsSpace with
        | 'F' :: rest4 =>
          match rest4.dropWhile pyIsSpace with
          | '\'' :: rest6 =>
            some ("rm F prime".toList ++ subRmFApos fuel (some '\'') rest6)
          | _ => none
        | _ => none
      | _ => none
    else none).getD (c :: subRmFApos fuel (some c) rest)

/-- `re.sub(r"\brm\s*F\s*\\\\(?![A-Za-z])", "rm F prime", s)`
(two literal backslashes). -/
def subRmFBackslashes : Nat → Option Char → List Char → List Char
  | 0, _, l => l
  | _, _, [] => []
  | fuel + 1, prev, c :: rest =>
    (if rmBoundary prev && c = 'r' then
      match rest with
      | 'm' :: rest2 =>
        match rest2.dropWhile pyIsSpace with
        | 'F' :: rest4 =>
          match rest4.dropWhile pyIsSpace with
          | '\\' :: '\\' :: rest6 =>
            if notLetterAhead rest6 then
              some ("rm F prime".toList ++ subRmFBackslashes fuel (some '\\') rest6)
            else none
          | _ => none
        | _ => none
      | _ => none
    else none).getD (c :: subRmFBackslashes fuel (some c) rest)

/-- `re.sub(r"\brm\s*F\s*prime\b", "rm F prime", s, flags=IGNORECASE)`. -/
def subRmFPrimeWord : Nat → Option Char → List Char → List Char
  | 0, _, l => l
  | _, _, [] => []
  | fuel + 1, prev, c :: rest =>
    (if rmBoundary prev && c.toLower = 'r' then
      match rest with
      | m1 :: rest2 =>
        if m1.toLower = 'm' then
          match rest2.dropWhile pyIsSpace with
          | f1 :: rest4 =>
            if f1.toLower = 'f' then
              match chompPrimeCI (rest4.dropWhile pyIsSpace) with
              | some rest6 =>
                if notWordAhead rest6 then
                  some ("rm F prime".toList ++ subRmFPrimeWord fuel (some 'e') rest6)
                else none
              | none => none
            else none
          | [] => none
        else none
      | [] => none
    else none).getD (c :: subRmFPrimeWord fuel (some c) rest)

/-- `re.sub(r"\brm\s+([A-Za-z])'", r"rm\1'", s)` (`\s+`: at least one space). -/
def subRmSpacedLetterApos : Nat → Option Char → List Char → List Char
  | 0, _, l => l
  | _, _, [] => []
  | fuel + 1, prev, c :: rest =>
    (if rmBoundary prev && c = 'r' then
      match rest with
      | 'm' :: s1 :: rest2 =>
        if pyIsSpace s1 then
          match rest2.dropWhile pyIsSpace with
          | l1 :: '\'' :: rest6 =>
            if isAsciiLetter l1 then
              some ('r' :: 'm' :: l1 :: '\'' :: subRmSpacedLetterApos fuel (some '\'') rest6)
            else none
          | _ => none
        else none
      | _ => none
    else none).getD (c :: subRmSpacedLetterApos fuel (some c) rest)

/-- The inner `_fix` of `_normalize_primes_in_equations`: the nine
substitutions applied in the source's order. -/
def primeFix (l : List Char) : List Char :=
  let n := l.length + 1
  let l := replacePrimeChars l
  let l := subBackslashPrime n l
  let l := subEscapedApos n l
  let l := subLetterBackslash l
  let l := subRmLetterBackslash n none l
  let l := subRmFApos n none l
  let l := subRmFBackslashes n none l
  let l := subRmFPrimeWord n none l
  subRmSpacedLetterApos n none l

/-- Lazy search for the first quote-then-parenthesis close of the regex
`(['\"])(.*?)(\2\))`: returns the middle and the remainder. -/
def findEqClose (q : Char) : List Char → Option (List Char × List Char)
  | [] => none
  | c :: rest =>
    if c = q then
      match rest with
      | ')' :: rest2 => some ([], rest2)
      | _ =>
        match findEqClose q rest with
        | some (mid, r) => some (c :: mid, r)
        | none => none
    else
      match findEqClose q rest with
      | some (mid, r) => some (c :: mid, r)
      | none => none

/-- Scan of `pattern.sub(repl, script)` for
`(insert_(?:equation|latex_equation)\()(['\"])(.*?)(\2\))` (DOTALL):
rewrite each quoted equation payload with `primeFix`. -/
def normPrimesAux : Nat → List Char → List Char
  | 0, l => l
  | _, [] => []
  | fuel + 1, l =>
    match l with
    | [] => []
    | c :: rest =>
      let hd :=
        if chIsPre "insert_equation(".toList l then some "insert_equation(".toList
        else if chIsPre "insert_latex_equation(".toList l then
          some "insert_latex_equation(".toList
        else none
      match hd with
      | some hdl =>
        match l.drop hdl.length with
        | q :: after2 =>
          if q = '\'' || q = '"' then
            match findEqClose q after2 with
            | some (mid, rest2) =>
              hdl ++ q :: primeFix mid ++ q :: ')' :: normPrimesAux fuel rest2
            | none => c :: normPrimesAux fuel rest
          else c :: normPrimesAux fuel rest
        | [] => c :: normPrimesAux fuel rest
      | none => c :: normPrimesAux fuel rest

/-- `ScriptRunner._normalize_primes_in_equations`. -/
def normalize_primes_in_equations (s : String) : String :=
  (normPrimesAux (s.toList.length + 1) s.toList).asString

/-! ## ScriptRunner._split_concat_calls -/

/-- Character scan of `_split_concat_calls`: split on ` + ` outside quotes,
respecting backslash escapes; `buf` is kept reversed. -/
def splitConcatAux : List Char → List Char → Option Char → Bool → List (List Char)
  | [], buf, _, _ => [buf.reverse]
  | c :: rest, buf, quote, escaped =>
    if escaped then splitConcatAux rest (c :: buf) quote false
    else if c = '\\' then splitConcatAux rest (c :: buf) quote true
    else if c = '\'' || c = '"' then
      splitConcatAux rest (c :: buf)
        (match quote with
         | none => some c
         | some q => if q = c then none else some q) false
    else if quote = none && chIsPre [' ', '+', ' '] (c :: rest) then
      buf.reverse :: splitConcatAux (rest.drop 2) [] none false
    else splitConcatAux rest (c :: buf) quote false
termination_by l _ _ _ => l.length
decreasing_by all_goals simp [List.length_cons, List.length_drop] <;> omega

/-- `ScriptRunner._split_concat_calls`. -/
def split_concat_calls (line : String) : List String :=
  if !(strContains line " + ") then [line]
  else
    let parts := (((splitConcatAux line.toList [] none false).map
      (fun l => pyStrip l.asString)).filter (fun p => p ≠ ""))
    if parts = [] then [line] else parts

/-! ## ScriptRunner._repair_multiline_calls -/

/-- Fold state of `_repair_multiline_calls`. -/
structure RepState where
  repaired : List String
  buffer : List String
  quote : Option Char
deriving Repr, DecidableEq

/-- Strip each buffered part and join with single spaces
(`" ".join(part.strip() for part in buffer)`). -/
def joinStripSpace (parts : List String) : String :=
  String.intercalate " " (parts.map pyStrip)

/-- One line of the `_repair_multiline_calls` loop. -/
def repairStep (st : RepState) (line : String) : RepState :=
  match st.quote with
  | none =>
    if strContains line "insert_text(" || strContains line "insert_equation(" ||
       strContains line "insert_latex_equation(" then
      if countUnescaped '\'' line.toList false % 2 = 1 then
        { st with quote := some '\'', buffer := [line] }
      else if countUnescaped '"' line.toList false % 2 = 1 then
        { st with quote := some '"', buffer := [line] }
      else { st with repaired := st.repaired ++ [line] }
    else { st with repaired := st.repaired ++ [line] }
  | some q =>
    let buf := st.buffer ++ [line]
    let total := (buf.map (fun chunk => countUnescaped q chunk.toList false)).sum
    if total % 2 = 0 then
      { repaired := st.repaired ++ [joinStripSpace buf], buffer := [], quote := none }
    else { st with buffer := buf }

/-- End-of-input flush of `_repair_multiline_calls`. -/
def repairFinish (st : RepState) : List String :=
  if st.buffer = [] then st.repaired
  else
    let joined := joinStripSpace st.buffer
    let joined :=
      if st.quote = some '\'' && !(strEnds (pyStrip joined) "')") then joined ++ "')"
      else if st.quote = some '"' && !(strEnds (pyStrip joined) "\")") then joined ++ "\")"
      else joined
    st.repaired ++ [joined]

/-- Initial repair state. -/
def repairInit : RepState := ⟨[], [], none⟩

/-- `ScriptRunner._repair_multiline_calls`. -/
def repair_multiline_calls (lines : List String) : List String :=
  repairFinish (lines.foldl repairStep repairInit)

/-! ## ScriptRunner._normalize_placeholders

The pass is embedded once, instrumented: each output line carries a tag,
`true` when the pass synthesized the line itself and `false` when it copied
(or moved) an input line.  `normalize_placeholders` erases the tags.
The accumulator is kept in reverse order so that `out.append` is a cons and
`out.pop()` is a tail. -/

/-- Parse `fp_re`: `^\s*focus_placeholder\(\s*(['\"])(.*?)\1\s*\)\s*$`,
returning the captured marker.  The helper walks the lazy `(.*?)`:
the first closing quote whose remainder matches `\s*\)\s*$` ends the body. -/
def fpTailOk (l : List Char) : Bool :=
  match l.dropWhile pyIsSpace with
  | ')' :: r => (r.dropWhile pyIsSpace).isEmpty
  | _ => false

/-- Body scan for `fpMarker` (`acc` holds the body reversed). -/
def fpScanBody (q : Char) : List Char → List Char → Option String
  | _, [] => none
  | acc, c :: rest =>
    if c = q && fpTailOk rest then some acc.reverse.asString
    else fpScanBody q (c :: acc) rest

/-- Marker captured by `fp_re` from a stripped line, if it matches. -/
def fpMarker (stripped : String) : Option String :=
  let s := stripped.toList.dropWhile pyIsSpace
  match chompPre "focus_placeholder(".toList s with
  | none => none
  | some s1 =>
    match s1.dropWhile pyIsSpace with
    | q :: s2 => if q = '\'' || q = '"' then fpScanBody q [] s2 else none
    | [] => none

/-- The `insert_template(` line test with a choices-capable template name. -/
def isTemplateChoiceLine (stripped : String) : Bool :=
  strStarts stripped "insert_template(" &&
    (strContains stripped "header.hwp" || strContains stripped "box.hwp" ||
     strContains stripped "box_white.hwp")

/-- The inner condition that sets `has_choices_placeholder`. -/
def templateHasChoices (stripped : String) : Bool :=
  strContains stripped "header.hwp" || strContains stripped "box_white.hwp" ||
  strContains stripped "box.hwp"

/-- `box_item_re`: `^\s*insert_text\(\s*['\"]\s*[ㄱㄴㄷ]\.`. -/
def boxItemMatch (stripped : String) : Bool :=
  let s := stripped.toList.dropWhile pyIsSpace
  match chompPre "insert_text(".toList s with
  | none => false
  | some s1 =>
    match s1.dropWhile pyIsSpace with
    | q :: s2 =>
      if q = '\'' || q = '"' then
        match s2.dropWhile pyIsSpace with
        | c :: s3 => (c = 'ㄱ' || c = 'ㄴ' || c = 'ㄷ') && s3.head? = some '.'
        | [] => false
      else false
    | [] => false

/-- `content_re`:
`^\s*(insert_text|insert_equation|set_bold|set_align_justify_next_line|set_align_right_next_line)\(`. -/
def contentMatch (stripped : String) : Bool :=
  let s := stripped.toList.dropWhile pyIsSpace
  chIsPre "insert_text(".toList s || chIsPre "insert_equation(".toList s ||
  chIsPre "set_bold(".toList s || chIsPre "set_align_justify_next_line(".toList s ||
  chIsPre "set_align_right_next_line(".toList s

/-- `box_start_re`:
`^\s*insert_text\(\s*['\"]\s*(\(|○|◎|●|•|ㄱ\.|ㄴ\.|ㄷ\.|가\.|나\.|다\.)`. -/
def boxStartMatch (stripped : String) : Bool :=
  let s := stripped.toList.dropWhile pyIsSpace
  match chompPre "insert_text(".toList s with
  | none => false
  | some s1 =>
    match s1.dropWhile pyIsSpace with
    | q :: s2 =>
      if q = '\'' || q = '"' then
        match s2.dropWhile pyIsSpace with
        | c :: s3 =>
          c = '(' || c = '○' || c = '◎' || c = '●' || c = '•' ||
          ((c = 'ㄱ' || c = 'ㄴ' || c = 'ㄷ' || c = '가' || c = '나' || c = '다') &&
            s3.head? = some '.')
        | [] => false
      else false
    | [] => false

/-- `choice_re`: `^\s*insert_(?:text|equation)\(\s*['\"].*①`. -/
def choiceMatch (stripped : String) : Bool :=
  let s := stripped.toList.dropWhile pyIsSpace
  match (chompPre "insert_text(".toList s).orElse
      (fun _ => chompPre "insert_equation(".toList s) with
  | none => false
  | some s1 =>
    match s1.dropWhile pyIsSpace with
    | q :: s2 => (q = '\'' || q = '"') && s2.contains '①'
    | [] => false

/-- Scan state of `_normalize_placeholders`. -/
structure PlState where
  seenInside : Bool
  insertedInside : Bool
  sawTemplate : Bool
  hasChoices : Bool
  sawOutside : Bool
  sawAfterBox : Bool
deriving Repr, DecidableEq

/-- Initial placeholder state. -/
def plInit : PlState := ⟨false, false, false, false, false, false⟩

/-- First sequential rewrite of the content path: synthesize
`focus_placeholder('@@@')` in front of the first content-producing line
after a template. -/
def plContent1 (stripped : String) (st : PlState) (acc : List (String × Bool)) :
    PlState × List (String × Bool) :=
  if st.sawTemplate && !st.sawOutside && contentMatch stripped then
    ({ st with sawOutside := true }, ("focus_placeholder('@@@')", true) :: acc)
  else (st, acc)

/-- Second sequential rewrite: synthesize `focus_placeholder('###')` in
front of a box-opening line of a choices-capable template. -/
def plContent2 (stripped : String) (st : PlState) (acc : List (String × Bool)) :
    PlState × List (String × Bool) :=
  if !st.seenInside && st.sawTemplate && st.hasChoices && st.sawOutside &&
      !st.sawAfterBox &&
      (stripped = "set_align_justify_next_line()" || boxItemMatch stripped ||
       boxStartMatch stripped) then
    ({ st with seenInside := true, insertedInside := true },
     ("focus_placeholder('###')", true) :: acc)
  else (st, acc)

/-- The accumulator rewrite of the third sequential content rewrite: push
`focus_placeholder('###')`, hoisting it over a directly preceding
`set_align_justify_next_line()` line (the source's `out.pop()` case). -/
def plHoistSal (acc : List (String × Bool)) : List (String × Bool) :=
  match acc with
  | t :: acc2 =>
    if pyStrip t.1 = "set_align_justify_next_line()" then
      ("set_align_justify_next_line()", true) :: ("focus_placeholder('###')", true) :: acc2
    else ("focus_placeholder('###')", true) :: acc
  | [] => ("focus_placeholder('###')", true) :: acc

/-- Third sequential rewrite: synthesize `focus_placeholder('###')` in front
of a ㄱ/ㄴ/ㄷ item, hoisting it over a directly preceding
`set_align_justify_next_line()` line. -/
def plContent3 (stripped : String) (st : PlState) (acc : List (String × Bool)) :
    PlState × List (String × Bool) :=
  if !st.seenInside && st.sawTemplate && st.sawOutside && boxItemMatch stripped then
    ({ st with seenInside := true, insertedInside := true }, plHoistSal acc)
  else (st, acc)

/-- Fourth sequential rewrite: synthesize `exit_box()`, a paragraph break
and `focus_placeholder('&&&')` in front of the first circled-numeral choice
line. -/
def plContent4 (stripped : String) (st : PlState) (acc : List (String × Bool)) :
    PlState × List (String × Bool) :=
  if st.seenInside && st.sawTemplate && st.hasChoices && !st.sawAfterBox &&
      choiceMatch stripped then
    ({ st with sawAfterBox := true },
     ("focus_placeholder('&&&')", true) :: ("insert_paragraph()", true) ::
       ("exit_box()", true) :: acc)
  else (st, acc)

/-- One line of `_normalize_placeholders`.  `acc` is the reversed, tagged
output; tag `true` marks a line the pass synthesized. -/
def plStep (st : PlState) (acc : List (String × Bool)) (line : String) :
    PlState × List (String × Bool) :=
  let stripped := pyStrip line
  if isTemplateChoiceLine stripped then
    ({ st with sawTemplate := true,
               hasChoices := if templateHasChoices stripped then true else st.hasChoices },
     (line, false) :: acc)
  else
    match fpMarker stripped with
    | some marker =>
      if marker = "###" then
        if !st.insertedInside then ({ st with seenInside := true }, (line, false) :: acc)
        else (st, acc)
      else if marker = "@@@" then
        let st1 := { st with sawOutside := true }
        if st1.seenInside then
          (st1, ("insert_paragraph()", true) :: ("exit_box()", true) :: acc)
        else if st1.sawTemplate then (st1, (line, false) :: acc)
        else (st1, acc)
      else if marker = "&&&" then
        if st.hasChoices then
          let st1 := { st with sawAfterBox := true }
          if st1.seenInside then
            (st1, (line, false) :: ("insert_paragraph()", true) :: ("exit_box()", true) :: acc)
          else (st1, (line, false) :: acc)
        else (st, acc)
      else (st, (line, false) :: acc)
    | none =>
      let p1 := plContent1 stripped st acc
      let p2 := plContent2 stripped p1.1 p1.2
      let p3 := plContent3 stripped p2.1 p2.2
      let p4 := plContent4 stripped p3.1 p3.2
      (p4.1, (line, false) :: p4.2)

/-- Main loop of `_normalize_placeholders`, threading state and reversed
tagged output. -/
def plRun : PlState → List (String × Bool) → List String → PlState × List (String × Bool)
  | st, acc, [] => (st, acc)
  | st, acc, l :: ls =>
    let p := plStep st acc l
    plRun p.1 p.2 ls

/-- `_normalize_placeholders` with synthesis tags. -/
def normalize_placeholders_tagged (lines : List String) : List (String × Bool) :=
  (plRun plInit [] lines).2.reverse

/-- `ScriptRunner._normalize_placeholders`. -/
def normalize_placeholders (lines : List String) : List String :=
  (normalize_placeholders_tagged lines).map Prod.fst

/-- The synthesized `focus_placeholder` marker of a tagged output entry. -/
def synMarkerOf (p : String × Bool) : Option String :=
  if p.2 then
    if p.1 = "focus_placeholder('@@@')" then some "@@@"
    else if p.1 = "focus_placeholder('###')" then some "###"
    else if p.1 = "focus_placeholder('&&&')" then some "&&&"
    else none
  else none

/-- Synthesized markers of a tagged output, in output order. -/
def synMarkers (out : List (String × Bool)) : List String := out.filterMap synMarkerOf

/-- All `focus_placeholder` markers of an (untagged) output, in order. -/
def fpMarkersOf (out : List String) : List String :=
  out.filterMap (fun l => fpMarker (pyStrip l))

/-! ## ScriptRunner._ensure_score_right_align -/

/-- Parse `score_re`:
`^\s*(insert_(?:text|equation|latex_equation))\(\s*(['\"])\s*(\[\s*(\d+)\s*점\s*\])\s*\2\s*\)\s*$`,
returning the digit group.  Regex `\d` is modelled as ASCII digits. -/
def scoreMatch (line : String) : Option String :=
  let s0 := line.toList.dropWhile pyIsSpace
  let afterHead :=
    (chompPre "insert_text(".toList s0).orElse fun _ =>
    (chompPre "insert_equation(".toList s0).orElse fun _ =>
    chompPre "insert_latex_equation(".toList s0
  afterHead.bind fun s1 =>
  match s1.dropWhile pyIsSpace with
  | [] => none
  | q :: s2 =>
    if q = '\'' || q = '"' then
      (chompChar '[' (s2.dropWhile pyIsSpace)).bind fun s4 =>
      let s5 := s4.dropWhile pyIsSpace
      let ds := s5.takeWhile Char.isDigit
      if ds.isEmpty then none else
      (chompChar '점' ((s5.dropWhile Char.isDigit).dropWhile pyIsSpace)).bind fun s7 =>
      (chompChar ']' (s7.dropWhile pyIsSpace)).bind fun s9 =>
      (chompChar q (s9.dropWhile pyIsSpace)).bind fun s11 =>
      (chompChar ')' (s11.dropWhile pyIsSpace)).bind fun s13 =>
      if (s13.dropWhile pyIsSpace).isEmpty then some ds.asString else none
    else none

/-- Scan state of `_ensure_score_right_align`; `rout` is the reversed
output.  `inLine` mirrors `in_line_content`, which the source tracks but
never reads. -/
structure ScoreSt where
  rout : List String
  needExtra : Bool
  inLine : Bool
deriving Repr, DecidableEq

/-- The `while` loop before a score line: drop trailing
`insert_small_paragraph()` lines and collapse runs of `insert_paragraph()`
to a single one (on the reversed output). -/
def scorePopPrev : List String → List String
  | [] => []
  | l :: rest =>
    if pyStrip l = "insert_small_paragraph()" then scorePopPrev rest
    else if pyStrip l = "insert_paragraph()" then
      match rest with
      | l2 :: _ => if pyStrip l2 = "insert_paragraph()" then scorePopPrev rest else l :: rest
      | [] => l :: rest
    else l :: rest

/-- One line of `_ensure_score_right_align`. -/
def scoreStep (st : ScoreSt) (line : String) : ScoreSt :=
  let stripped := pyStrip line
  if stripped = "insert_paragraph()" then
    { rout := line :: st.rout, needExtra := false, inLine := false }
  else if stripped = "insert_small_paragraph()" then
    { rout := line :: st.rout, needExtra := false, inLine := false }
  else
    let st :=
      if st.needExtra && stripped ≠ "" then
        { st with rout := "insert_paragraph()" :: st.rout, needExtra := false }
      else st
    match scoreMatch line with
    | some n =>
      let r1 := scorePopPrev st.rout
      let r2 :=
        match r1 with
        | [] => r1
        | t :: _ => if pyStrip t ≠ "insert_paragraph()" then "insert_paragraph()" :: r1 else r1
      let prev := match r2 with | [] => "" | t :: _ => pyStrip t
      let r3 :=
        if prev ≠ "set_align_right_next_line()" then "set_align_right_next_line()" :: r2
        else r2
      { rout := "insert_paragraph()" :: ("insert_text('[" ++ n ++ "점]')") :: r3,
        needExtra := true, inLine := false }
    | none =>
      { st with rout := line :: st.rout,
                inLine := if stripped ≠ "" then true else st.inLine }

/-- Main loop of `_ensure_score_right_align`. -/
def scoreRun : ScoreSt → List String → ScoreSt
  | st, [] => st
  | st, l :: ls => scoreRun (scoreStep st l) ls

/-- Initial score state. -/
def scoreInit : ScoreSt := ⟨[], false, false⟩

/-- `ScriptRunner._ensure_score_right_align`. -/
def ensure_score_right_align (lines : List String) : List String :=
  (scoreRun scoreInit lines).rout.reverse

/-! ## ScriptRunner._sanitize_tabs -/

/-- Lines the tab sanitizer rewrites: a sole `insert_text` of the two-character
escape backslash-t (as it appears in script text). -/
def isTabOnlyLine (l : String) : Bool :=
  pyStrip l = "insert_text('\\t')" || pyStrip l = "insert_text(\"\\t\")"

/-- First line with non-empty `strip` (the `j` lookahead of `_sanitize_tabs`). -/
def nextNonBlank : List String → Option String
  | [] => none
  | l :: rest => if pyStrip l = "" then nextNonBlank rest else some l

/-- `ScriptRunner._sanitize_tabs`: the `while` loop advances one line per
iteration, emitting either the kept tab line, its single-space replacement,
or the line unchanged. -/
def sanitize_tabs : List String → List String
  | [] => []
  | l :: rest =>
    if isTabOnlyLine l then
      (match nextNonBlank rest with
       | some nb => if strStarts (pyLStrip nb) "insert_equation(" then l else "insert_text(' ')"
       | none => "insert_text(' ')") :: sanitize_tabs rest
    else l :: sanitize_tabs rest

/-- Specification-side reading of the lookahead: the next non-blank
instruction line is an `insert_equation(` insertion. -/
def nextNonBlankIsEquation (rest : List String) : Bool :=
  match nextNonBlank rest with
  | some nb => strStarts (pyLStrip nb) "insert_equation("
  | none => false

/-! ## The full normalization pipeline (`ScriptRunner.run`, lines 597-619)

The composition below mirrors the normalization section of
`ScriptRunner.run` on an already dedented script: code-marker stripping
(plus `strip`), multiline-string and inline-call sanitization, the
unterminated-equation fix, prime normalization, multiline-call repair,
concat splitting, placeholder normalization, score-line formatting, tab
sanitization, and the final join/strip. -/

/-- The full normalization pipeline of `ScriptRunner.run`. -/
def scriptPipeline (script : String) : String :=
  let cleaned := pyStrip (strip_code_markers script)
  let cleaned := sanitize_multiline_strings cleaned
  let cleaned := normalize_inline_calls cleaned
  let cleaned := sanitize_unterminated_equation_strings cleaned
  let cleaned := normalize_primes_in_equations cleaned
  let expanded := ((repair_multiline_calls (strSplitNl cleaned)).map split_concat_calls).flatten
  let expanded := normalize_placeholders expanded
  let expanded := ensure_score_right_align expanded
  let expanded := sanitize_tabs expanded
  pyStrip (strJoinNl expanded)

/-! ## HwpController (document composer)

Composer state mirrors the `_`-prefixed fields of `HwpController`; sink
interactions become a trace of `SinkOp` values.  COM calls are modelled on
their success path: the probing/`try-except` ladders of the source
(`_insert_text_raw`'s per-character fallback, `_set_paragraph_align`'s
`hwp.Run` retry, version probing in `exit_box`) are sink-internal
adaptation, collapsed to the primary operation they issue. -/

/-- One document-sink operation. -/
inductive SinkOp where
  | raw (text : String)
  | act (name : String)
  | align (mode : String)
  | charShape (heightPt100 : Int)
  | tableCreate (rows cols : Int)
  | equation (content : String)
deriving Repr, DecidableEq

/-- Composer cursor/layout state (`HwpController.__init__`). -/
structure CState where
  inConditionBox : Bool
  boxLineStart : Bool
  lineStart : Bool
  firstLineWritten : Bool
  alignRightNextLine : Bool
  lineRightAligned : Bool
  alignJustifyNextLine : Bool
  lineJustifyAligned : Bool
  lastWasEquation : Bool
  underlineActive : Bool
  boldActive : Bool
deriving Repr, DecidableEq

/-- Fresh composer state. -/
def cInit : CState :=
  { inConditionBox := false, boxLineStart := false, lineStart := true,
    firstLineWritten := false, alignRightNextLine := false, lineRightAligned := false,
    alignJustifyNextLine := false, lineJustifyAligned := false, lastWasEquation := false,
    underlineActive := false, boldActive := false }

/-- `HwpController._insert_text_raw`: empty text issues nothing. -/
def insertTextRawOps (text : String) : List SinkOp :=
  if text = "" then [] else [SinkOp.raw text]

/-- `HwpController._set_paragraph_align` (success path). -/
def setAlignOps (mode : String) : List SinkOp := [SinkOp.align mode]

/-- `HwpController.insert_paragraph`. -/
def hwpInsertParagraph (st : CState) : CState × List SinkOp :=
  let ops := [SinkOp.act "BreakPara"]
  let st := if st.inConditionBox then { st with boxLineStart := true } else st
  let st := { st with lineStart := true }
  let p1 :=
    if st.lineRightAligned then ({ st with lineRightAligned := false }, ops ++ setAlignOps "left")
    else (st, ops)
  let st := p1.1
  let ops := p1.2
  if st.lineJustifyAligned then ({ st with lineJustifyAligned := false }, ops ++ setAlignOps "left")
  else (st, ops)

/-- The `\t`-marker normalization at the top of `insert_text`:
a leading two-character `\t` or `/t` becomes an actual tab. -/
def pyTabNorm (text : String) : String :=
  if strStarts text "\\t" || strStarts text "/t" then
    ("\t".toList ++ text.toList.drop 2).asString
  else text

/-- `HwpController._maybe_insert_line_indent`. -/
def maybeInsertLineIndent (st : CState) (spaces : Nat) : CState × List SinkOp :=
  if st.inConditionBox then (st, [])
  else if st.lineStart ∧ st.firstLineWritten then
    ({ st with lineStart := false }, insertTextRawOps (List.replicate spaces ' ').asString)
  else (st, [])

/-- `HwpController.insert_text`, embedded monolithically in source order:
tab-marker normalization; paragraph break for a tab at line start; one-shot
right then justify alignment; the line-start indentation block; the
`lstrip` under the right-align skip flag; the equation leading-space drop;
the box space prefix; the raw emit and trailing state updates. -/
def hwpInsertText (st : CState) (text0 : String) : CState × List SinkOp :=
  if text0 = "" then (st, [])
  else
    let text := pyTabNorm text0
    let p0 :=
      if st.lineStart ∧ strStarts text "\t" ∧ st.firstLineWritten then hwpInsertParagraph st
      else (st, [])
    let st := p0.1
    let ops0 := p0.2
    let p1 :=
      if st.lineStart ∧ st.alignRightNextLine then
        ({ st with alignRightNextLine := false, lineRightAligned := true },
         setAlignOps "right", true)
      else (st, [], false)
    let st := p1.1
    let ops1 := p1.2.1
    let skipAutoIndentRight := p1.2.2
    let p2 :=
      if st.lineStart ∧ st.alignJustifyNextLine then
        ({ st with alignJustifyNextLine := false, lineJustifyAligned := true },
         setAlignOps "justify")
      else (st, [])
    let st := p2.1
    let ops2 := p2.2
    let st :=
      if st.lineStart then
        if strStarts text "\t" then { st with lineStart := false }
        else if strStarts text " " then { st with lineStart := false }
        else st
      else st
    let text :=
      if skipAutoIndentRight then (text.toList.dropWhile (fun c => c = ' ' || c = '\t')).asString
      else text
    let text :=
      if st.lastWasEquation ∧ strStarts text " " then (text.toList.drop 1).asString else text
    let p3 :=
      if st.inConditionBox ∧ st.boxLineStart ∧ strStarts text " " = false then
        ({ st with boxLineStart := false }, " " ++ text)
      else (st, text)
    let st := p3.1
    let text := p3.2
    ({ st with lineStart := false, lastWasEquation := false, firstLineWritten := true },
     ops0 ++ ops1 ++ ops2 ++ insertTextRawOps text)

/-! ### The per-text-insertion policy as five staged rewrites

The specification describes `insert_text` as five ordered steps.  Each step
becomes one function on an intermediate `TextPass`; composing them in
different orders settles the ordering claim. -/

/-- Intermediate value threaded through the staged per-text-insertion
policy. -/
structure TextPass where
  st : CState
  ops : List SinkOp
  text : String
  skipAutoIndentRight : Bool
deriving Repr, DecidableEq

/-- Step (1): a tab at line start emits a paragraph break first. -/
def textStage1 (p : TextPass) : TextPass :=
  if p.st.lineStart ∧ strStarts p.text "\t" ∧ p.st.firstLineWritten then
    let q := hwpInsertParagraph p.st
    { p with st := q.1, ops := p.ops ++ q.2 }
  else p

/-- Step (2): apply a pending one-shot right/justify alignment flag, run the
line-start indentation bookkeeping and suppress auto-indent (the `lstrip`)
for a right-aligned line. -/
def textStage2 (p : TextPass) : TextPass :=
  let q1 :=
    if p.st.lineStart ∧ p.st.alignRightNextLine then
      ({ p.st with alignRightNextLine := false, lineRightAligned := true },
       p.ops ++ setAlignOps "right", true)
    else (p.st, p.ops, p.skipAutoIndentRight)
  let st := q1.1
  let ops := q1.2.1
  let skip := q1.2.2
  let q2 :=
    if st.lineStart ∧ st.alignJustifyNextLine then
      ({ st with alignJustifyNextLine := false, lineJustifyAligned := true },
       ops ++ setAlignOps "justify")
    else (st, ops)
  let st := q2.1
  let ops := q2.2
  let st :=
    if st.lineStart then
      if strStarts p.text "\t" then { st with lineStart := false }
      else if strStarts p.text " " then { st with lineStart := false }
      else st
    else st
  let text :=
    if skip then (p.text.toList.dropWhile (fun c => c = ' ' || c = '\t')).asString
    else p.text
  { st := st, ops := ops, text := text, skipAutoIndentRight := skip }

/-- Step (3): inside a box at box-line-start, prefix one space when the text
does not already begin with one. -/
def textStage3 (p : TextPass) : TextPass :=
  if p.st.inConditionBox ∧ p.st.boxLineStart ∧ strStarts p.text " " = false then
    { p with st := { p.st with boxLineStart := false }, text := " " ++ p.text }
  else p

/-- Step (4): after an equation, drop one leading space of the text. -/
def textStage4 (p : TextPass) : TextPass :=
  if p.st.lastWasEquation ∧ strStarts p.text " " then
    { p with text := (p.text.toList.drop 1).asString }
  else p

/-- Step (5): emit the literal text and update trailing state. -/
def textStage5 (p : TextPass) : CState × List SinkOp :=
  ({ p.st with lineStart := false, lastWasEquation := false, firstLineWritten := true },
   p.ops ++ insertTextRawOps p.text)

/-- The staged policy in the order the source applies it:
(1), (2), then the equation space drop (4), then the box prefix (3), then (5). -/
def insertTextStagedCodeOrder (st : CState) (text0 : String) : CState × List SinkOp :=
  if text0 = "" then (st, [])
  else textStage5 (textStage3 (textStage4 (textStage2 (textStage1
    ⟨st, [], pyTabNorm text0, false⟩))))

/-- The staged policy in the order the specification claims:
(1), (2), the box prefix (3), then the equation space drop (4), then (5). -/
def insertTextStagedSpecOrder (st : CState) (text0 : String) : CState × List SinkOp :=
  if text0 = "" then (st, [])
  else textStage5 (textStage4 (textStage3 (textStage2 (textStage1
    ⟨st, [], pyTabNorm text0, false⟩))))

/-- `HwpController.insert_equation` (the sink call
`insert_equation_control` of the external `equation` module becomes one
`SinkOp.equation`). -/
def hwpInsertEquation (st : CState) (hwpeqn : String) : CState × List SinkOp :=
  let content := hwpeqn
  let p0 :=
    if st.lineStart ∧ strStarts content "\t" then
      let q := hwpInsertText st "\t"
      (q.1, (content.toList.dropWhile (· = '\t')).asString, q.2)
    else (st, content, [])
  let st := p0.1
  let content := p0.2.1
  let ops0 := p0.2.2
  let p1 :=
    if st.lineStart ∧ st.alignRightNextLine then
      ({ st with alignRightNextLine := false, lineRightAligned := true },
       setAlignOps "right", true)
    else (st, [], false)
  let st := p1.1
  let ops1 := p1.2.1
  let skip := p1.2.2
  let p2 :=
    if st.lineStart ∧ st.alignJustifyNextLine then
      ({ st with alignJustifyNextLine := false, lineJustifyAligned := true },
       setAlignOps "justify")
    else (st, [])
  let st := p2.1
  let ops2 := p2.2
  let p3 := if !skip then maybeInsertLineIndent st 2 else (st, [])
  let st := p3.1
  let ops3 := p3.2
  ({ st with lineStart := false, lastWasEquation := true, firstLineWritten := true },
   ops0 ++ ops1 ++ ops2 ++ ops3 ++ [SinkOp.equation content])

/-- `HwpController.exit_box` (success path of the first action ladder). -/
def hwpExitBox (st : CState) : CState × List SinkOp :=
  let p1 :=
    if st.inConditionBox then
      let q1 := hwpInsertText st " "
      let q2 := hwpInsertParagraph q1.1
      (q2.1, [SinkOp.charShape 300] ++ q1.2 ++ q2.2 ++ [SinkOp.charShape 800])
    else (st, [])
  ({ p1.1 with inConditionBox := false, boxLineStart := false },
   p1.2 ++ [SinkOp.act "TableLowerCell", SinkOp.act "MoveDown"])

/-- Error message of the `insert_table` rows/cols guard. -/
def tableGuardMsg : String := "표의 행/열은 1 이상이어야 합니다."

/-- One cell of the `insert_table` fill loop: 8pt font, optional centering,
then text or (for an `EQ:` prefix) an equation. -/
def fillCellOps (st : CState) (value : String) (alignCenter : Bool) : CState × List SinkOp :=
  let o := [SinkOp.charShape 800] ++
    (if alignCenter then [SinkOp.act "ParagraphShapeAlignCenter"] else [])
  if value = "" then (st, o)
  else if strStarts value "EQ:" then
    let q := hwpInsertEquation st (pyStrip (value.toList.drop 3).asString)
    (q.1, o ++ q.2)
  else
    let q := hwpInsertText st value
    (q.1, o ++ q.2)

/-- One row of the `insert_table` fill loop (`c` is the column counter;
`TableRightCell` after every cell with `c < cols - 1`). -/
def fillRowAux (alignCenter : Bool) (cols : Nat) : CState → Nat → List String → CState × List SinkOp
  | st, _, [] => (st, [])
  | st, c, v :: rest =>
    let p1 := fillCellOps st v alignCenter
    let o2 := if c < cols - 1 then [SinkOp.act "TableRightCell"] else []
    let p3 := fillRowAux alignCenter cols p1.1 (c + 1) rest
    (p3.1, p1.2 ++ o2 ++ p3.2)

/-- The row loop of the `insert_table` fill (`r` is the row counter;
between rows: `TableLowerCell` then `cols - 1` times `TableLeftCell`). -/
def fillGridAux (alignCenter : Bool) (rows cols : Nat) :
    CState → Nat → List (List String) → CState × List SinkOp
  | st, _, [] => (st, [])
  | st, r, row :: rest =>
    let p1 := fillRowAux alignCenter cols st 0 (row.take cols)
    let o2 :=
      if r < rows - 1 then
        SinkOp.act "TableLowerCell" :: List.replicate (cols - 1) (SinkOp.act "TableLeftCell")
      else []
    let p3 := fillGridAux alignCenter rows cols p1.1 (r + 1) rest
    (p3.1, p1.2 ++ o2 ++ p3.2)

/-- `HwpController.insert_table`: result is (error message if raised, final
composer state, issued sink trace).  `cell_data` is modelled as the 2-D
string grid of the instruction protocol (the source's best-effort
re-nesting of a flat string list is outside this argument type); the
`finally` block runs `exit_box` and restores left alignment when
`exit_after` is set. -/
def hwpInsertTable (st : CState) (rows cols : Int) (cellData : Option (List (List String)))
    (alignCenter : Bool) (exitAfter : Bool) : Option String × CState × List SinkOp :=
  if rows ≤ 0 ∨ cols ≤ 0 then (some tableGuardMsg, st, [])
  else
    let p0 := maybeInsertLineIndent st 1
    let st := p0.1
    let o1 := p0.2 ++ [SinkOp.tableCreate rows cols]
    let st := { st with lineStart := false, firstLineWritten := true }
    let p1 :=
      match cellData with
      | none => (st, [])
      | some grid =>
        if grid.isEmpty then (st, [])
        else fillGridAux alignCenter rows.toNat cols.toNat st 0 (grid.take rows.toNat)
    let st := p1.1
    let o2 := p1.2
    let p2 :=
      if exitAfter then
        let q := hwpExitBox st
        ({ q.1 with lineStart := true }, q.2 ++ setAlignOps "left")
      else (st, [])
    (none, p2.1, o1 ++ o2 ++ p2.2)

/-! ## ScriptRunner._execute_fallback (fallback tokenizer)

The tokenizer scans the text left to right, greedily matching the longest
known instruction name (the list below is the source's
`sorted(names, key=len, reverse=True)`, which is stable within equal
lengths).  Controller calls are abstracted by an oracle from the parsed
instruction to an optional exception message: a failing `funcs_no_args` /
`funcs_one_str` / `set_bold` / `set_underline` call is logged
(`execFail`), while failures inside the `set_char_width_ratio` and
`insert_table` branches are swallowed by their inner `try/except: pass`
(`execSwallowed`).  `cancel_check` is modelled as absent.  The scan
carries fuel, one unit per consumed character; `fbLoop` supplies
`length` fuel, and fuel-insensitivity is proved below. -/

/-- Instruction names in the order the fallback matcher tries them. -/
def fbNames : List String :=
  ["set_align_justify_next_line", "set_align_right_next_line",
   "insert_small_paragraph", "set_table_border_white", "insert_latex_equation",
   "set_char_width_ratio", "focus_placeholder", "insert_paragraph",
   "insert_view_box", "insert_equation", "insert_template", "set_underline",
   "insert_table", "insert_text", "insert_box", "exit_box", "set_bold"]

/-- The `funcs_no_args` keys. -/
def fbNoArgNames : List String :=
  ["insert_paragraph", "insert_box", "exit_box", "insert_view_box",
   "insert_small_paragraph", "set_align_right_next_line",
   "set_align_justify_next_line", "set_table_border_white"]

/-- The `funcs_one_str` keys. -/
def fbOneStrNames : List String :=
  ["insert_text", "insert_equation", "insert_latex_equation", "insert_template",
   "focus_placeholder"]

/-- A recognized fallback instruction with its coerced argument. -/
inductive FbInstr where
  | noArg (name : String)
  | oneStr (name : String) (s : String)
  | setBold (b : Bool)
  | underlineToggle
  | underlineSet (b : Bool)
  | charWidthRatio (v : Int)
  | tableRaw (argStr : String)
deriving Repr, DecidableEq

/-- One fallback-execution event. -/
inductive FbEvent where
  | exec (i : FbInstr)
  | execFail (i : FbInstr) (msg : String)
  | execSwallowed (i : FbInstr)
deriving Repr, DecidableEq

/-- First instruction name matching at the current position
(`name + "("` as a prefix). -/
def fbFirstMatch (cs : List Char) : Option String :=
  fbNames.find? (fun n => chIsPre (n ++ "(").toList cs)

/-- The argument scan of the fallback tokenizer: consume until the
matching `)` at depth zero, respecting quotes and backslash escapes;
returns the argument characters and the remaining text. -/
def fbArgScan : List Char → Nat → Option Char → Bool → List Char × List Char
  | [], _, _, _ => ([], [])
  | c :: rest, depth, quote, escaped =>
    if escaped then
      let p := fbArgScan rest depth quote false
      (c :: p.1, p.2)
    else if c = '\\' then
      let p := fbArgScan rest depth quote true
      (c :: p.1, p.2)
    else
      match quote with
      | some q =>
        let p := fbArgScan rest depth (if c = q then none else some q) false
        (c :: p.1, p.2)
      | none =>
        if c = '\'' || c = '"' then
          let p := fbArgScan rest depth (some c) false
          (c :: p.1, p.2)
        else if c = '(' then
          let p := fbArgScan rest (depth + 1) none false
          (c :: p.1, p.2)
        else if c = ')' then
          if depth ≤ 1 then ([], rest)
          else
            let p := fbArgScan rest (depth - 1) none false
            (c :: p.1, p.2)
        else
          let p := fbArgScan rest depth none false
          (c :: p.1, p.2)

/-- Python `str.lower()` (ASCII). -/
def pyLower (s : String) : String := (s.toList.map Char.toLower).asString

/-- The string coercion of `funcs_one_str`: unwrap one level of quotes,
tolerating a missing closing quote. -/
def fbCoerceStr (argStr : String) : String :=
  match argStr.toList with
  | q :: rest =>
    if q = '\'' || q = '"' then
      if rest.contains q then (rest.takeWhile (· ≠ q)).asString else rest.asString
    else argStr
  | [] => argStr

/-- Python `int(float(arg_str))` on the argument of
`set_char_width_ratio`, for the numeric literals this instruction
receives: optional sign, digits, optional fraction; `none` when `float`
would raise. -/
def pyFloatInt (s : String) : Option Int :=
  let l := pyStripL s.toList
  let p := match l with
    | '-' :: rest => (true, rest)
    | '+' :: rest => (false, rest)
    | _ => (false, l)
  let digits := p.2.takeWhile Char.isDigit
  let rest := p.2.dropWhile Char.isDigit
  let frac :=
    match rest with
    | '.' :: fr => if fr.all Char.isDigit then some fr else none
    | [] => some []
    | _ => none
  match frac with
  | none => none
  | some fr =>
    if digits.isEmpty && fr.isEmpty then none
    else
      let n : Int := Int.ofNat (digits.foldl (fun a c => a * 10 + (c.toNat - 48)) 0)
      some (if p.1 then -n else n)

/-- Events of one recognized instruction: parse the argument, call the
controller through the oracle, log or swallow a failure as the source's
nested `try/except` blocks do. -/
def fbBuildEvents (o : FbInstr → Option String) (name argStr : String) : List FbEvent :=
  if fbNoArgNames.contains name then
    match o (FbInstr.noArg name) with
    | none => [FbEvent.exec (FbInstr.noArg name)]
    | some m => [FbEvent.execFail (FbInstr.noArg name) m]
  else if fbOneStrNames.contains name then
    let i := FbInstr.oneStr name (fbCoerceStr argStr)
    match o i with
    | none => [FbEvent.exec i]
    | some m => [FbEvent.execFail i m]
  else if name = "set_bold" then
    let i := FbInstr.setBold (strContains (pyLower argStr) "true")
    match o i with
    | none => [FbEvent.exec i]
    | some m => [FbEvent.execFail i m]
  else if name = "set_underline" then
    let i :=
      if argStr = "" then FbInstr.underlineToggle
      else FbInstr.underlineSet (strContains (pyLower argStr) "true")
    match o i with
    | none => [FbEvent.exec i]
    | some m => [FbEvent.execFail i m]
  else if name = "set_char_width_ratio" then
    match (if argStr = "" then some 0 else pyFloatInt argStr) with
    | none => []
    | some v =>
      let i := FbInstr.charWidthRatio v
      match o i with
      | none => [FbEvent.exec i]
      | some _ => [FbEvent.execSwallowed i]
  else
    let i := FbInstr.tableRaw argStr
    match o i with
    | none => [FbEvent.exec i]
    | some _ => [FbEvent.execSwallowed i]

/-- One position of the fallback scan: skip one unrecognized character, or
consume a whole recognized instruction. -/
def fbStep (o : FbInstr → Option String) (cs : List Char) : List FbEvent × List Char :=
  match fbFirstMatch cs with
  | none => ([], cs.drop 1)
  | some name =>
    let p := fbArgScan (cs.drop (name.length + 1)) 1 none false
    (fbBuildEvents o name (pyStrip p.1.asString), p.2)

/-- Fuelled scan loop of `_execute_fallback`. -/
def fbLoopAux (o : FbInstr → Option String) : Nat → List Char → List FbEvent
  | 0, _ => []
  | _, [] => []
  | fuel + 1, c :: rest =>
    let p := fbStep o (c :: rest)
    p.1 ++ fbLoopAux o fuel p.2

/-- `ScriptRunner._execute_fallback` on a script text. -/
def execute_fallback (o : FbInstr → Option String) (script : String) : List FbEvent :=
  fbLoopAux o script.toList.length script.toList

/-- Number of instruction executions (successful, logged or swallowed) in a
fallback trace. -/
def fbInstrCount (evs : List FbEvent) : Nat := evs.length

/-- The scanned instruction of an event, failure outcome erased. -/
def fbEventInstr : FbEvent → FbInstr
  | FbEvent.exec i => i
  | FbEvent.execFail i _ => i
  | FbEvent.execSwallowed i => i

/-! ## TypingWorker.run (gui_app)

The serialized typing worker consumes a queue of (index, script) jobs.  The
sink run of one script is abstracted by an oracle `att` from queue position
and attempt number to an optional exception message; event `attempt idx k`
stands for a whole-script run of job `idx`, `acquire` for constructing and
connecting a fresh `HwpController`.  `_is_rpc_unavailable_message`
classifies a failure as transport-unavailable.  Cancellation is not
exercised (the cancel flag stays clear), and the
`HwpControllerError` and generic `Exception` handlers of the source, whose
bodies are identical, are merged. -/

/-- `gui_app._is_rpc_unavailable_message`. -/
def isRpcUnavailableMessage (msg : String) : Bool :=
  strContains msg "RPC 서버를 사용할 수 없습니다" ||
  strContains msg "RPC server is unavailable" ||
  strContains msg "0x800706BA" ||
  strContains msg "-2147023174"

/-- Events of the typing worker. -/
inductive WorkEv where
  | acquire
  | started (idx : Nat)
  | attempt (idx : Nat) (k : Nat)
  | raised (msg : String)
  | finished (idx : Nat)
  | errorOut (msg : String)
deriving Repr, DecidableEq

/-- `TypingWorker.run` over a job queue: one first attempt per job; on a
transport-unavailable failure, one fresh acquire and one full replay; a
second failure, or any failure not classified transport-unavailable, emits
the error and stops the queue. -/
def typingWorkerRun (att : Nat → Nat → Option String) : Nat → Bool → List Nat → List WorkEv
  | _, _, [] => []
  | pos, acq, idx :: rest =>
    (if acq then [] else [WorkEv.acquire]) ++ WorkEv.started idx :: WorkEv.attempt idx 1 ::
    (match att pos 1 with
     | none => WorkEv.finished idx :: typingWorkerRun att (pos + 1) true rest
     | some msg =>
       WorkEv.raised msg ::
       (if isRpcUnavailableMessage msg then
         WorkEv.acquire :: WorkEv.attempt idx 2 ::
         (match att pos 2 with
          | none => WorkEv.finished idx :: typingWorkerRun att (pos + 1) true rest
          | some m2 => [WorkEv.raised m2, WorkEv.errorOut m2])
       else [WorkEv.errorOut msg]))

/-- A full worker run from a fresh thread (no sink acquired yet). -/
def typingWorker (att : Nat → Nat → Option String) (jobs : List Nat) : List WorkEv :=
  typingWorkerRun att 0 false jobs

/-! ## Notions used by the theorem statements -/

/-- The run of `insert_paragraph()` lines directly following the first
occurrence of `x` in `out`. -/
def paraRunAfter (x : String) (out : List String) : List String :=
  ((out.dropWhile (fun l => l != x)).drop 1).takeWhile (fun l => l == "insert_paragraph()")

/-- The closing quote-parenthesis pair for quote `q`. -/
def closePair (q : Char) : String := String.mk [q, ')']

/-- Synthesized markers of a reversed tagged accumulator, in chronological
order. -/
def synRev (acc : List (String × Bool)) : List String :=
  (acc.filterMap synMarkerOf).reverse

/-- The marker sequence the placeholder scan may still have synthesized,
read off the state flags. -/
def plAllowed (st : PlState) : List String :=
  (if st.sawOutside then ["@@@"] else []) ++ (if st.seenInside then ["###"] else []) ++
  (if st.sawAfterBox then ["&&&"] else [])

/-- Invariant of the placeholder scan: the synthesized markers so far form a
sublist of what the flags allow, and a marker can only have been
synthesized once its stage is recorded in the flags. -/
def plInvariant (st : PlState) (acc : List (String × Bool)) : Prop :=
  List.Sublist (synRev acc) (plAllowed st) ∧
  (st.sawOutside = false → synRev acc = []) ∧
  (st.seenInside = false → List.Sublist (synRev acc) ["@@@"]) ∧
  (st.sawAfterBox = false → List.Sublist (synRev acc) ["@@@", "###"])

/-! # Theorems -/

/-! ## C1: idempotence of the full pipeline -/

/-- C1: the claim that re-running the full normalization pipeline on its own
output yields that output unchanged is violated by the code.  On the input
`insert_text('[3점]')` the first run right-aligns the score line; the second
run sees `set_align_right_next_line()` directly before the score line,
inserts another paragraph break and another alignment instruction, so the
pipeline rewrites its own output (and keeps growing it on every further
run).  The spec states idempotence as a testable property, so this is a bug
in `_ensure_score_right_align`. -/
theorem pipeline_second_run_rewrites :
    scriptPipeline "insert_text('[3점]')" =
      "set_align_right_next_line()\ninsert_text('[3점]')\ninsert_paragraph()" ∧
    scriptPipeline "set_align_right_next_line()\ninsert_text('[3점]')\ninsert_paragraph()" =
      "set_align_right_next_line()\ninsert_paragraph()\nset_align_right_next_line()\ninsert_text('[3점]')\ninsert_paragraph()\ninsert_paragraph()" ∧
    scriptPipeline (scriptPipeline "insert_text('[3점]')") ≠
      scriptPipeline "insert_text('[3점]')" := by
  refine ⟨?_, ?_, ?_⟩ <;> decide

/-! ## C6: the tab sanitizer -/

/-- Length preservation of the tab sanitizer. -/
theorem sanitize_tabs_length (lines : List String) :
    (sanitize_tabs lines).length = lines.length := by
  induction lines with
  | nil => rfl
  | cons l rest ih =>
    unfold sanitize_tabs
    split <;> simp [ih]

/-- C6 counterexample: a sole-tab line followed by an
`insert_latex_equation` line is rewritten to a single space, although the
claim (with equation insertion read as `insert_equation` or
`insert_latex_equation`) requires it to be kept: the source's lookahead
tests only `insert_equation(`. -/
theorem tab_before_latex_equation_rewritten :
    sanitize_tabs ["insert_text('\\t')", "insert_latex_equation('x over 2')"] =
      ["insert_text(' ')", "insert_latex_equation('x over 2')"] ∧
    sanitize_tabs ["insert_text('\\t')", "insert_latex_equation('x over 2')"] ≠
      ["insert_text('\\t')", "insert_latex_equation('x over 2')"] := by
  refine ⟨?_, ?_⟩ <;> decide

/-- C6 amended: the tab sanitizer keeps every line unchanged except a
sole-tab line, which is kept exactly when the next line with non-empty
strip starts (after `lstrip`) with `insert_equation(` — not
`insert_latex_equation(` — and is otherwise rewritten to
`insert_text(' ')`; output positions correspond one to one to input
positions. -/
theorem tab_kept_iff_next_nonblank_is_insert_equation (lines : List String) (i : Nat)
    (h : i < lines.length) :
    (sanitize_tabs lines).length = lines.length ∧
    (sanitize_tabs lines).getD i "" =
      (if isTabOnlyLine (lines.getD i "") then
        (if nextNonBlankIsEquation (lines.drop (i + 1)) then lines.getD i ""
         else "insert_text(' ')")
       else lines.getD i "") := by
  refine ⟨sanitize_tabs_length lines, ?_⟩
  induction lines generalizing i with
  | nil => simp at h
  | cons l rest ih =>
    cases i with
    | zero =>
      unfold sanitize_tabs
      by_cases hl : isTabOnlyLine l = true
      · simp only [hl, if_true, List.getD_cons_zero, List.drop_succ_cons, List.drop_zero,
          nextNonBlankIsEquation]
        cases hnb : nextNonBlank rest with
        | none => simp
        | some nb => simp
      · simp only [Bool.not_eq_true] at hl
        simp [hl]
    | succ j =>
      have hj : j < rest.length := by simpa using h
      unfold sanitize_tabs
      by_cases hl : isTabOnlyLine l = true
      · simpa [hl] using ih j hj
      · simp only [Bool.not_eq_true] at hl
        simpa [hl] using ih j hj

/-- C6 witness: a sole-tab line directly before an `insert_equation` line is
kept. -/
theorem tab_kept_iff_next_nonblank_is_insert_equation_witness :
    (sanitize_tabs ["insert_text('\\t')", "insert_equation('q over 2')"]).length = 2 ∧
    (sanitize_tabs ["insert_text('\\t')", "insert_equation('q over 2')"]).getD 0 "" =
      "insert_text('\\t')" := by
  have h := tab_kept_iff_next_nonblank_is_insert_equation
    ["insert_text('\\t')", "insert_equation('q over 2')"] 0 (by decide)
  exact ⟨h.1, h.2.trans (by decide)⟩

/-! ## C3: score-line canonicalization -/

/-- The score scan distributes over append. -/
theorem scoreRun_append (A B : List String) (st : ScoreSt) :
    scoreRun st (A ++ B) = scoreRun (scoreRun st A) B := by
  induction A generalizing st with
  | nil => rfl
  | cons l ls ih => simp [scoreRun, ih]

/-- Evaluation of one score step on a score line whose preceding output line
is plain content (not a paragraph instruction) and with no pending blank
line. -/
theorem scoreStep_score_clean (st : ScoreSt) (line n t : String) (rest : List String)
    (h1 : pyStrip line ≠ "insert_paragraph()") (h2 : pyStrip line ≠ "insert_small_paragraph()")
    (h3 : scoreMatch line = some n) (h4 : st.needExtra = false)
    (hr : st.rout = t :: rest)
    (ht1 : pyStrip t ≠ "insert_paragraph()") (ht2 : pyStrip t ≠ "insert_small_paragraph()") :
    scoreStep st line =
      { rout := "insert_paragraph()" :: ("insert_text('[" ++ n ++ "점]')") ::
          "set_align_right_next_line()" :: "insert_paragraph()" :: t :: rest,
        needExtra := true, inLine := false } := by
  have e1 : pyStrip "insert_paragraph()" = "insert_paragraph()" := by decide
  have e2 : ("insert_paragraph()" : String) ≠ "set_align_right_next_line()" := by decide
  simp [scoreStep, h1, h2, h3, h4, hr, scorePopPrev, ht1, ht2, e1, e2]

/-- Evaluation of one score step on a plain content line while a blank line
after a score is still owed: exactly one paragraph break is inserted before
the line. -/
theorem scoreStep_content_extra (st : ScoreSt) (line : String)
    (h1 : pyStrip line ≠ "insert_paragraph()") (h2 : pyStrip line ≠ "insert_small_paragraph()")
    (h3 : scoreMatch line = none) (h4 : st.needExtra = true) (h5 : pyStrip line ≠ "") :
    scoreStep st line =
      { rout := line :: "insert_paragraph()" :: st.rout, needExtra := false,
        inLine := true } := by
  simp [scoreStep, h1, h2, h3, h4, h5]

/-- C3 counterexample: with explicit paragraph breaks between the score line
and the next content, the output carries three `insert_paragraph()` lines
between the score text and that content — the claim's "one break then
exactly one additional break" (two) is violated; the formatter only inserts
the additional break lazily and keeps surplus explicit breaks. -/
theorem score_surplus_breaks_kept :
    ensure_score_right_align
      ["insert_text('a')", "insert_text('[3점]')", "insert_paragraph()",
       "insert_paragraph()", "insert_text('b')"] =
      ["insert_text('a')", "insert_paragraph()", "set_align_right_next_line()",
       "insert_text('[3점]')", "insert_paragraph()", "insert_paragraph()",
       "insert_paragraph()", "insert_text('b')"] ∧
    (paraRunAfter "insert_text('[3점]')"
      (ensure_score_right_align
        ["insert_text('a')", "insert_text('[3점]')", "insert_paragraph()",
         "insert_paragraph()", "insert_text('b')"])).length = 3 := by
  refine ⟨?_, ?_⟩ <;> decide

/-- C3 amended: for a line list `A ++ [s, q]` where `s` is a sole-content
score line, the prefix output ends in a plain content line (mid-paragraph,
no preceding break, no pending blank) and the following content line `q`
comes immediately (no explicit break between score and content), the output
is the prefix output followed by exactly one `insert_paragraph()`, then
`set_align_right_next_line()`, then the plain-text `insert_text('[N점]')`,
then one `insert_paragraph()`, then exactly one additional
`insert_paragraph()` before `q`.  (When explicit breaks separate score and
content they are kept instead, as the counterexample shows.) -/
theorem score_line_canonicalized (A : List String) (s q n t : String) (rest : List String)
    (hs : scoreMatch s = some n)
    (hs1 : pyStrip s ≠ "insert_paragraph()") (hs2 : pyStrip s ≠ "insert_small_paragraph()")
    (hq0 : pyStrip q ≠ "") (hq1 : pyStrip q ≠ "insert_paragraph()")
    (hq2 : pyStrip q ≠ "insert_small_paragraph()") (hq3 : scoreMatch q = none)
    (hne : (scoreRun scoreInit A).needExtra = false)
    (hr : (scoreRun scoreInit A).rout = t :: rest)
    (ht1 : pyStrip t ≠ "insert_paragraph()") (ht2 : pyStrip t ≠ "insert_small_paragraph()") :
    ensure_score_right_align (A ++ [s, q]) =
      (scoreRun scoreInit A).rout.reverse ++
        ["insert_paragraph()", "set_align_right_next_line()",
         "insert_text('[" ++ n ++ "점]')", "insert_paragraph()", "insert_paragraph()", q] := by
  unfold ensure_score_right_align
  rw [scoreRun_append]
  have h2steps : scoreRun (scoreRun scoreInit A) [s, q] =
      scoreStep (scoreStep (scoreRun scoreInit A) s) q := rfl
  rw [h2steps, scoreStep_score_clean (scoreRun scoreInit A) s n t rest hs1 hs2 hs hne hr ht1 ht2,
    scoreStep_content_extra _ q hq1 hq2 hq3 rfl hq0]
  simp [hr]

/-- C3 witness: a score line between two plain content lines is rewritten to
the canonical break/alignment layout. -/
theorem score_line_canonicalized_witness :
    ensure_score_right_align
      ["insert_text('문항 내용')", "insert_text('[3점]')", "insert_text('다음 글')"] =
      ["insert_text('문항 내용')", "insert_paragraph()", "set_align_right_next_line()",
       "insert_text('[3점]')", "insert_paragraph()", "insert_paragraph()",
       "insert_text('다음 글')"] := by
  have h := score_line_canonicalized ["insert_text('문항 내용')"] "insert_text('[3점]')"
    "insert_text('다음 글')" "3" "insert_text('문항 내용')" []
    (by decide) (by decide) (by decide) (by decide) (by decide) (by decide) (by decide)
    (by decide) (by decide) (by decide) (by decide)
  exact h.trans (by decide)

/-! ## C5: a second explicit inside-box placeholder -/

/-- The placeholder scan distributes over append. -/
theorem plRun_append (A B : List String) (st : PlState) (acc : List (String × Bool)) :
    plRun st acc (A ++ B) = plRun (plRun st acc A).1 (plRun st acc A).2 B := by
  induction A generalizing st acc with
  | nil => rfl
  | cons l ls ih => simp [plRun, ih]

/-- An explicit `focus_placeholder('###')` line is dropped without any state
change once the pass itself has synthesized the inside marker. -/
theorem plStep_inside_already_synthesized (st : PlState) (acc : List (String × Bool))
    (l : String)
    (h1 : isTemplateChoiceLine (pyStrip l) = false)
    (h2 : fpMarker (pyStrip l) = some "###")
    (h3 : st.insertedInside = true) :
    plStep st acc l = (st, acc) := by
  simp [plStep, h1, h2, h3]

/-- C5 counterexample: when the first explicit `###` is consumed (copied)
rather than synthesized, `inserted_inside` stays false and a second explicit
`###` is copied again instead of being dropped — the claim's
"synthesized or consumed" disjunction does not hold for the consumed case. -/
theorem second_inside_after_consumed_copied :
    normalize_placeholders
      ["insert_template('box.hwp')", "focus_placeholder('###')",
       "focus_placeholder('###')"] =
      ["insert_template('box.hwp')", "focus_placeholder('###')",
       "focus_placeholder('###')"] ∧
    (normalize_placeholders
      ["insert_template('box.hwp')", "focus_placeholder('###')",
       "focus_placeholder('###')"]).count "focus_placeholder('###')" = 2 := by
  refine ⟨?_, ?_⟩ <;> decide

/-- C5 amended: an explicit `focus_placeholder('###')` line is dropped
(removed from the output, with no other change) whenever the inside-box
marker has already been synthesized by the pass itself; after a merely
consumed explicit occurrence it is copied again. -/
theorem second_inside_dropped_after_synthesis (A B : List String) (l : String)
    (h1 : isTemplateChoiceLine (pyStrip l) = false)
    (h2 : fpMarker (pyStrip l) = some "###")
    (h3 : (plRun plInit [] A).1.insertedInside = true) :
    normalize_placeholders (A ++ l :: B) = normalize_placeholders (A ++ B) := by
  unfold normalize_placeholders normalize_placeholders_tagged
  rw [plRun_append, plRun_append]
  have hstep : plRun (plRun plInit [] A).1 (plRun plInit [] A).2 (l :: B) =
      plRun (plRun plInit [] A).1 (plRun plInit [] A).2 B := by
    show plRun (plStep (plRun plInit [] A).1 (plRun plInit [] A).2 l).1
        (plStep (plRun plInit [] A).1 (plRun plInit [] A).2 l).2 B = _
    rw [plStep_inside_already_synthesized _ _ l h1 h2 h3]
  rw [hstep]

/-- C5 witness: after the pass synthesizes `###` in front of a ㄱ-item, a
later explicit `###` line is dropped. -/
theorem second_inside_dropped_after_synthesis_witness :
    normalize_placeholders
      ["insert_template('box.hwp')", "insert_text('조건')", "insert_text('ㄱ. 가나다')",
       "focus_placeholder('###')"] =
      normalize_placeholders
        ["insert_template('box.hwp')", "insert_text('조건')", "insert_text('ㄱ. 가나다')"] := by
  have h := second_inside_dropped_after_synthesis
    ["insert_template('box.hwp')", "insert_text('조건')", "insert_text('ㄱ. 가나다')"] []
    "focus_placeholder('###')" (by decide) (by decide) (by decide)
  simpa using h

/-! ## C2: placeholder monotonicity -/

/-- Pushing a tagged entry appends its synthesized marker, if any. -/
theorem synRev_cons (p : String × Bool) (acc : List (String × Bool)) :
    synRev (p :: acc) = synRev acc ++ (synMarkerOf p).toList := by
  unfold synRev
  cases h : synMarkerOf p <;> simp [List.filterMap_cons, h]

/-- A copied line synthesizes nothing. -/
theorem synRev_copied (l : String) (acc : List (String × Bool)) :
    synRev ((l, false) :: acc) = synRev acc := by
  rw [synRev_cons]; simp [synMarkerOf]

/-- Synthesized `exit_box()` lines carry no marker. -/
theorem synRev_exit (acc : List (String × Bool)) :
    synRev (("exit_box()", true) :: acc) = synRev acc := by
  rw [synRev_cons]
  have h : synMarkerOf ("exit_box()", true) = none := by decide
  simp [h]

/-- Synthesized `insert_paragraph()` lines carry no marker. -/
theorem synRev_para (acc : List (String × Bool)) :
    synRev (("insert_paragraph()", true) :: acc) = synRev acc := by
  rw [synRev_cons]
  have h : synMarkerOf ("insert_paragraph()", true) = none := by decide
  simp [h]

/-- Synthesized `set_align_justify_next_line()` lines carry no marker. -/
theorem synRev_sal (acc : List (String × Bool)) :
    synRev (("set_align_justify_next_line()", true) :: acc) = synRev acc := by
  rw [synRev_cons]
  have h : synMarkerOf ("set_align_justify_next_line()", true) = none := by decide
  simp [h]

/-- Pushing the synthesized outside marker. -/
theorem synRev_at (acc : List (String × Bool)) :
    synRev (("focus_placeholder('@@@')", true) :: acc) = synRev acc ++ ["@@@"] := by
  rw [synRev_cons]
  have h : synMarkerOf ("focus_placeholder('@@@')", true) = some "@@@" := by decide
  simp [h]

/-- Pushing the synthesized inside marker. -/
theorem synRev_in (acc : List (String × Bool)) :
    synRev (("focus_placeholder('###')", true) :: acc) = synRev acc ++ ["###"] := by
  rw [synRev_cons]
  have h : synMarkerOf ("focus_placeholder('###')", true) = some "###" := by decide
  simp [h]

/-- Pushing the synthesized after-box marker. -/
theorem synRev_after (acc : List (String × Bool)) :
    synRev (("focus_placeholder('&&&')", true) :: acc) = synRev acc ++ ["&&&"] := by
  rw [synRev_cons]
  have h : synMarkerOf ("focus_placeholder('&&&')", true) = some "&&&" := by decide
  simp [h]

/-- An entry whose line strips to `set_align_justify_next_line()` carries no
synthesized marker (the entry `plContent3` may pop). -/
theorem synMarkerOf_strip_sal (p : String × Bool)
    (h : pyStrip p.1 = "set_align_justify_next_line()") : synMarkerOf p = none := by
  obtain ⟨l, b⟩ := p
  cases b with
  | false => simp [synMarkerOf]
  | true =>
    have n1 : l ≠ "focus_placeholder('@@@')" := by
      intro he; subst he; exact absurd h (by decide)
    have n2 : l ≠ "focus_placeholder('###')" := by
      intro he; subst he; exact absurd h (by decide)
    have n3 : l ≠ "focus_placeholder('&&&')" := by
      intro he; subst he; exact absurd h (by decide)
    simp [synMarkerOf, n1, n2, n3]

/-- The allowed marker list grows with the flags. -/
theorem plAllowed_mono {st st' : PlState}
    (h1 : st.sawOutside = true → st'.sawOutside = true)
    (h2 : st.seenInside = true → st'.seenInside = true)
    (h3 : st.sawAfterBox = true → st'.sawAfterBox = true) :
    List.Sublist (plAllowed st) (plAllowed st') := by
  unfold plAllowed
  refine List.Sublist.append (List.Sublist.append ?_ ?_) ?_
  · cases hb : st.sawOutside
    · simp
    · rw [h1 hb]
  · cases hb : st.seenInside
    · simp
    · rw [h2 hb]
  · cases hb : st.sawAfterBox
    · simp
    · rw [h3 hb]

/-- Every allowed marker list is a sublist of the full marker order. -/
theorem plAllowed_sub_full (st : PlState) :
    List.Sublist (plAllowed st) ["@@@", "###", "&&&"] := by
  unfold plAllowed
  have e : ["@@@", "###", "&&&"] = (["@@@"] ++ ["###"]) ++ ["&&&"] := rfl
  have seg : ∀ (b : Bool) (m : String), List.Sublist (if b then [m] else []) [m] := by
    intro b m; cases b <;> simp
  rw [e]
  exact List.Sublist.append (List.Sublist.append (seg _ _) (seg _ _)) (seg _ _)

/-- The invariant survives any step that synthesizes no marker and never
clears the `saw_outside` / `seen_inside` / `saw_after_box` flags. -/
theorem plInvariant_mono {st st' : PlState} {acc acc' : List (String × Bool)}
    (h : plInvariant st acc) (hSM : synRev acc' = synRev acc)
    (h1 : st.sawOutside = true → st'.sawOutside = true)
    (h2 : st.seenInside = true → st'.seenInside = true)
    (h3 : st.sawAfterBox = true → st'.sawAfterBox = true) :
    plInvariant st' acc' := by
  obtain ⟨hsub, hout, hin, hafter⟩ := h
  refine ⟨hSM ▸ hsub.trans (plAllowed_mono h1 h2 h3), ?_, ?_, ?_⟩
  · intro hz
    have : st.sawOutside = false := by
      cases hb : st.sawOutside
      · rfl
      · rw [h1 hb] at hz; cases hz
    rw [hSM]; exact hout this
  · intro hz
    have : st.seenInside = false := by
      cases hb : st.seenInside
      · rfl
      · rw [h2 hb] at hz; cases hz
    rw [hSM]; exact hin this
  · intro hz
    have : st.sawAfterBox = false := by
      cases hb : st.sawAfterBox
      · rfl
      · rw [h3 hb] at hz; cases hz
    rw [hSM]; exact hafter this

/-- `plContent1` preserves the invariant. -/
theorem plContent1_inv (stripped : String) (st : PlState) (acc : List (String × Bool))
    (h : plInvariant st acc) :
    plInvariant (plContent1 stripped st acc).1 (plContent1 stripped st acc).2 := by
  unfold plContent1
  split
  case isTrue hc =>
    simp only [Bool.and_eq_true, Bool.not_eq_true'] at hc
    obtain ⟨⟨_, ho⟩, _⟩ := hc
    have hz : synRev acc = [] := h.2.1 ho
    refine ⟨?_, ?_, ?_, ?_⟩
    · rw [synRev_at, hz]
      simp only [List.nil_append, plAllowed]
      exact List.sublist_append_left _ _
    · intro hz2; simp at hz2
    · intro _
      rw [synRev_at, hz]
      simp
    · intro _
      rw [synRev_at, hz]
      simp
  case isFalse =>
    exact h

/-- `plContent2` preserves the invariant. -/
theorem plContent2_inv (stripped : String) (st : PlState) (acc : List (String × Bool))
    (h : plInvariant st acc) :
    plInvariant (plContent2 stripped st acc).1 (plContent2 stripped st acc).2 := by
  unfold plContent2
  split
  case isTrue hc =>
    simp only [Bool.and_eq_true, Bool.not_eq_true'] at hc
    obtain ⟨⟨⟨⟨⟨hsi, _⟩, _⟩, ho⟩, hab⟩, _⟩ := hc
    have hsub : List.Sublist (synRev acc) ["@@@"] := h.2.2.1 hsi
    refine ⟨?_, ?_, ?_, ?_⟩
    · rw [synRev_in]
      simp only [plAllowed, ho, hab, if_true]
      rcases List.sublist_singleton.mp hsub with hz | hz <;> rw [hz] <;> simp
    · intro hz2; rw [ho] at hz2; cases hz2
    · intro hz2; simp at hz2
    · intro _
      rw [synRev_in]
      rcases List.sublist_singleton.mp hsub with hz | hz <;> rw [hz] <;> simp
  case isFalse =>
    exact h

/-- `plContent4` preserves the invariant, given that the outside stage was
reached. -/
theorem plContent4_inv (stripped : String) (st : PlState) (acc : List (String × Bool))
    (h : plInvariant st acc)
    (hout : choiceMatch stripped = true → st.sawTemplate = true → st.sawOutside = true) :
    plInvariant (plContent4 stripped st acc).1 (plContent4 stripped st acc).2 := by
  unfold plContent4
  split
  case isTrue hc =>
    simp only [Bool.and_eq_true, Bool.not_eq_true'] at hc
    obtain ⟨⟨⟨⟨hsi, hT⟩, _⟩, hab⟩, hch⟩ := hc
    have ho : st.sawOutside = true := hout hch hT
    have hsub : List.Sublist (synRev acc) ["@@@", "###"] := h.2.2.2 hab
    refine ⟨?_, ?_, ?_, ?_⟩
    · rw [synRev_after, synRev_para, synRev_exit]
      simp only [plAllowed, ho, hsi, if_true]
      exact hsub.append (List.Sublist.refl _)
    · intro hz2; rw [ho] at hz2; cases hz2
    · intro hz2; rw [hsi] at hz2; cases hz2
    · intro hz2; simp at hz2
  case isFalse =>
    exact h

/-- `plContent1` raises the outside flag whenever a template is active and
the line produces content. -/
theorem plContent1_out (stripped : String) (st : PlState) (acc : List (String × Bool))
    (hT : st.sawTemplate = true) (hC : contentMatch stripped = true) :
    (plContent1 stripped st acc).1.sawOutside = true := by
  unfold plContent1
  split
  case isTrue => rfl
  case isFalse hc =>
    simp only [hT, hC, Bool.and_eq_true, Bool.not_eq_true', and_true, true_and] at hc
    cases hb : st.sawOutside
    · exact absurd hb hc
    · rfl

/-- Flag bookkeeping of the four content rewrites. -/
theorem plContent1_flags (stripped : String) (st : PlState) (acc : List (String × Bool)) :
    (plContent1 stripped st acc).1.sawTemplate = st.sawTemplate ∧
    (plContent1 stripped st acc).1.hasChoices = st.hasChoices ∧
    (plContent1 stripped st acc).1.seenInside = st.seenInside ∧
    (plContent1 stripped st acc).1.sawAfterBox = st.sawAfterBox ∧
    (st.sawOutside = true → (plContent1 stripped st acc).1.sawOutside = true) := by
  unfold plContent1
  split <;> simp

/-- Flag bookkeeping of `plContent2`. -/
theorem plContent2_flags (stripped : String) (st : PlState) (acc : List (String × Bool)) :
    (plContent2 stripped st acc).1.sawTemplate = st.sawTemplate ∧
    (plContent2 stripped st acc).1.hasChoices = st.hasChoices ∧
    (plContent2 stripped st acc).1.sawOutside = st.sawOutside ∧
    (plContent2 stripped st acc).1.sawAfterBox = st.sawAfterBox ∧
    (st.seenInside = true → (plContent2 stripped st acc).1.seenInside = true) := by
  unfold plContent2
  split <;> simp

/-- Flag bookkeeping of `plContent3`. -/
theorem plContent3_flags (stripped : String) (st : PlState) (acc : List (String × Bool)) :
    (plContent3 stripped st acc).1.sawTemplate = st.sawTemplate ∧
    (plContent3 stripped st acc).1.hasChoices = st.hasChoices ∧
    (plContent3 stripped st acc).1.sawOutside = st.sawOutside ∧
    (plContent3 stripped st acc).1.sawAfterBox = st.sawAfterBox ∧
    (st.seenInside = true → (plContent3 stripped st acc).1.seenInside = true) := by
  unfold plContent3
  split <;> simp


/-- The hoisting push appends exactly one synthesized `###`. -/
theorem synRev_plHoistSal (acc : List (String × Bool)) :
    synRev (plHoistSal acc) = synRev acc ++ ["###"] := by
  match acc with
  | [] => simp only [plHoistSal]; rw [synRev_in]
  | t :: acc2 =>
    by_cases hp : pyStrip t.1 = "set_align_justify_next_line()"
    · simp only [plHoistSal, if_pos hp]
      rw [synRev_sal, synRev_in]
      have ht : synRev (t :: acc2) = synRev acc2 := by
        rw [synRev_cons, synMarkerOf_strip_sal t hp]; simp
      rw [ht]
    · simp only [plHoistSal, if_neg hp]
      rw [synRev_in]

/-- `plContent3` preserves the invariant. -/
theorem plContent3_inv (stripped : String) (st : PlState) (acc : List (String × Bool))
    (h : plInvariant st acc) :
    plInvariant (plContent3 stripped st acc).1 (plContent3 stripped st acc).2 := by
  unfold plContent3
  split
  case isTrue hc =>
    simp only [Bool.and_eq_true, Bool.not_eq_true'] at hc
    obtain ⟨⟨⟨hsi, _⟩, ho⟩, _⟩ := hc
    have hsub : List.Sublist (synRev acc) ["@@@"] := h.2.2.1 hsi
    refine ⟨?_, ?_, ?_, ?_⟩
    · rw [synRev_plHoistSal]
      simp only [plAllowed, ho, if_true]
      rcases List.sublist_singleton.mp hsub with hz | hz <;> rw [hz] <;>
        (cases hab : st.sawAfterBox <;> simp)
    · intro hz2; rw [ho] at hz2; cases hz2
    · intro hz2; simp at hz2
    · intro _
      rw [synRev_plHoistSal]
      rcases List.sublist_singleton.mp hsub with hz | hz <;> rw [hz] <;> simp
  case isFalse =>
    exact h

/-- A successful `chompPre` certifies its prefix test. -/
theorem chompPre_isPre {pat s r : List Char} (h : chompPre pat s = some r) :
    chIsPre pat s = true := by
  unfold chompPre at h
  split at h
  · assumption
  · cases h

/-- A circled-numeral choice line is a content-producing line
(`choice_re` matches only `insert_text(` / `insert_equation(` heads, both of
which `content_re` accepts). -/
theorem choiceMatch_content (stripped : String) (h : choiceMatch stripped = true) :
    contentMatch stripped = true := by
  simp only [choiceMatch] at h
  simp only [contentMatch]
  rcases ho : chompPre "insert_text(".toList (stripped.toList.dropWhile pyIsSpace) with _ | w
  · rcases he : chompPre "insert_equation(".toList (stripped.toList.dropWhile pyIsSpace)
      with _ | v
    · rw [ho, he] at h
      simp [Option.orElse] at h
    · rw [chompPre_isPre he]
      simp
  · rw [chompPre_isPre ho]
    simp

/-- One placeholder step preserves the invariant. -/
theorem plStep_inv (st : PlState) (acc : List (String × Bool)) (line : String)
    (h : plInvariant st acc) :
    plInvariant (plStep st acc line).1 (plStep st acc line).2 := by
  simp only [plStep]
  split
  case isTrue =>
    exact plInvariant_mono h (synRev_copied _ _) (fun x => x) (fun x => x) (fun x => x)
  case isFalse =>
    rcases hm : fpMarker (pyStrip line) with _ | marker <;> simp only [hm]
    · -- content path
      have i1 := plContent1_inv (pyStrip line) st acc h
      have i2 := plContent2_inv (pyStrip line) _ _ i1
      have i3 := plContent3_inv (pyStrip line) _ _ i2
      have hout : choiceMatch (pyStrip line) = true →
          (plContent3 (pyStrip line)
            (plContent2 (pyStrip line) (plContent1 (pyStrip line) st acc).1
              (plContent1 (pyStrip line) st acc).2).1
            (plContent2 (pyStrip line) (plContent1 (pyStrip line) st acc).1
              (plContent1 (pyStrip line) st acc).2).2).1.sawTemplate = true →
          (plContent3 (pyStrip line)
            (plContent2 (pyStrip line) (plContent1 (pyStrip line) st acc).1
              (plContent1 (pyStrip line) st acc).2).1
            (plContent2 (pyStrip line) (plContent1 (pyStrip line) st acc).1
              (plContent1 (pyStrip line) st acc).2).2).1.sawOutside = true := by
        intro hch hT
        set s' := pyStrip line with hs'
        set A1 := plContent1 s' st acc with hA1
        set A2 := plContent2 s' A1.1 A1.2 with hA2
        have hT0 : st.sawTemplate = true := by
          have e3 := (plContent3_flags s' A2.1 A2.2).1
          have e2 := (plContent2_flags s' A1.1 A1.2).1
          have e1 := (plContent1_flags s' st acc).1
          rw [← hA1] at e1
          rw [e3, e2, e1] at hT
          exact hT
        have h1out := plContent1_out s' st acc hT0 (choiceMatch_content _ hch)
        rw [← hA1] at h1out
        have e2o := (plContent2_flags s' A1.1 A1.2).2.2.1
        have e3o := (plContent3_flags s' A2.1 A2.2).2.2.1
        rw [e3o, e2o]
        exact h1out
      have i4 := plContent4_inv (pyStrip line) _ _ i3 hout
      exact plInvariant_mono i4 (synRev_copied _ _) (fun x => x) (fun x => x) (fun x => x)
    · -- focus_placeholder line
      by_cases e3 : marker = "###"
      · subst e3
        rw [if_pos (show ("###" : String) = "###" from rfl)]
        by_cases hi : (!st.insertedInside) = true
        · rw [if_pos hi]
          exact plInvariant_mono h (synRev_copied _ _) (fun x => x) (fun _ => rfl) (fun x => x)
        · rw [if_neg hi]
          exact h
      · rw [if_neg e3]
        by_cases e2 : marker = "@@@"
        · subst e2
          rw [if_pos (show ("@@@" : String) = "@@@" from rfl)]
          dsimp only
          by_cases hsi : st.seenInside = true
          · rw [if_pos hsi]
            refine plInvariant_mono h ?_ (fun _ => rfl) (fun x => x) (fun x => x)
            rw [synRev_para, synRev_exit]
          · rw [if_neg hsi]
            by_cases hT : st.sawTemplate = true
            · rw [if_pos hT]
              exact plInvariant_mono h (synRev_copied _ _) (fun _ => rfl) (fun x => x)
                (fun x => x)
            · rw [if_neg hT]
              exact plInvariant_mono h rfl (fun _ => rfl) (fun x => x) (fun x => x)
        · rw [if_neg e2]
          by_cases e1 : marker = "&&&"
          · subst e1
            rw [if_pos (show ("&&&" : String) = "&&&" from rfl)]
            dsimp only
            by_cases hc : st.hasChoices = true
            · rw [if_pos hc]
              by_cases hsi : st.seenInside = true
              · rw [if_pos hsi]
                refine plInvariant_mono h ?_ (fun x => x) (fun x => x) (fun _ => rfl)
                rw [synRev_copied, synRev_para, synRev_exit]
              · rw [if_neg hsi]
                exact plInvariant_mono h (synRev_copied _ _) (fun x => x) (fun x => x)
                  (fun _ => rfl)
            · rw [if_neg hc]
              exact h
          · rw [if_neg e1]
            exact plInvariant_mono h (synRev_copied _ _) (fun x => x) (fun x => x) (fun x => x)

/-- The invariant holds after scanning any line list. -/
theorem plRun_inv (lines : List String) : ∀ (st : PlState) (acc : List (String × Bool)),
    plInvariant st acc → plInvariant (plRun st acc lines).1 (plRun st acc lines).2 := by
  induction lines with
  | nil => intro st acc h; exact h
  | cons l ls ih =>
    intro st acc h
    simp only [plRun]
    exact ih _ _ (plStep_inv st acc l h)

/-- C2 counterexample: with an explicit `focus_placeholder('###')` before
the first content line, the output's `focus_placeholder` markers read
`###` then `@@@` — the full output marker order of the claim is violated
(the consumed explicit inside marker precedes the synthesized outside
marker). -/
theorem explicit_marker_order_violated :
    fpMarkersOf (normalize_placeholders
      ["insert_template('box.hwp')", "focus_placeholder('###')", "insert_text('x')"]) =
      ["###", "@@@"] ∧
    ¬ List.Sublist (fpMarkersOf (normalize_placeholders
      ["insert_template('box.hwp')", "focus_placeholder('###')", "insert_text('x')"]))
      ["@@@", "###", "&&&"] := by
  refine ⟨by decide, by decide⟩

/-- C2 amended: for every input line list, the markers the placeholder pass
itself synthesizes form (in output order) a sublist of
`@@@`, `###`, `&&&` — so each of the three markers is synthesized at most
once, and synthesized markers appear in the outside → inside → after-box
order.  Explicit markers copied from the input are not reordered and can
break the full-output order. -/
theorem placeholder_synthesized_monotone (lines : List String) :
    List.Sublist (synMarkers (normalize_placeholders_tagged lines)) ["@@@", "###", "&&&"] := by
  have hinv := plRun_inv lines plInit []
    ⟨List.nil_sublist _, fun _ => rfl, fun _ => List.nil_sublist _,
     fun _ => List.nil_sublist _⟩
  have heq : synMarkers (normalize_placeholders_tagged lines) =
      synRev (plRun plInit [] lines).2 := by
    unfold normalize_placeholders_tagged synMarkers synRev
    rw [List.filterMap_reverse]
  rw [heq]
  exact hinv.1.trans (plAllowed_sub_full _)

/-! ## C7: quote/brace repair at end of input -/

/-- Dropping a prefix predicate over an append keeps an untouched tail. -/
theorem dropWhile_append_keep (p : Char → Bool) (l1 l2 : List Char)
    (h : l2.dropWhile p = l2) : ∃ z, (l1 ++ l2).dropWhile p = z ++ l2 := by
  induction l1 with
  | nil =>
    refine ⟨[], ?_⟩
    simp only [List.nil_append]
    exact h
  | cons a l ih =>
    by_cases hp : p a = true
    · simpa [List.dropWhile_cons, hp] using ih
    · exact ⟨a :: l, by simp [List.dropWhile_cons, hp]⟩

/-- After stripping, a string ending in the closing quote-parenthesis pair
still ends in it. -/
theorem strEnds_strip_close (j : String) (q : Char) (hq : pyIsSpace q = false) :
    strEnds (pyStrip (j ++ closePair q)) (closePair q) = true := by
  have hL : (pyStrip (j ++ closePair q)).toList = pyStripL (j.toList ++ [q, ')']) := by
    simp [pyStrip, closePair, String.data_append]
    rfl
  unfold strEnds
  rw [hL]
  have hpat : (closePair q).toList.reverse = [')', q] := rfl
  rw [hpat]
  unfold pyStripL dropSpaceEnd
  rw [List.reverse_reverse]
  have h2 : List.dropWhile pyIsSpace [q, ')'] = [q, ')'] := by
    rw [List.dropWhile_cons]
    simp [hq]
  obtain ⟨z, hz⟩ := dropWhile_append_keep pyIsSpace j.toList [q, ')'] h2
  rw [hz]
  have h3 : (z ++ [q, ')']).reverse = ')' :: q :: z.reverse := by simp
  rw [h3, List.dropWhile_cons]
  have h4 : pyIsSpace ')' = false := by decide
  simp [h4, chIsPre]

/-- Structural invariant of the repair scan: the pending quote is always an
apostrophe or a double quote, and a non-empty buffer implies a pending
quote. -/
def RepInv (st : RepState) : Prop :=
  (st.quote = none ∨ st.quote = some '\'' ∨ st.quote = some '"') ∧
  (st.buffer ≠ [] → st.quote ≠ none)

/-- One repair step preserves the invariant. -/
theorem repairStep_inv (st : RepState) (line : String) (h : RepInv st) :
    RepInv (repairStep st line) := by
  obtain ⟨h1, h2⟩ := h
  unfold repairStep
  rcases hq : st.quote with _ | q
  · dsimp only
    split
    · split
      · exact ⟨Or.inr (Or.inl rfl), fun _ => by simp⟩
      · split
        · exact ⟨Or.inr (Or.inr rfl), fun _ => by simp⟩
        · refine ⟨Or.inl rfl, fun hb => absurd (h2 hb) ?_⟩
          simp [hq]
    · refine ⟨Or.inl rfl, fun hb => absurd (h2 hb) ?_⟩
      simp [hq]
  · dsimp only
    split
    · exact ⟨Or.inl rfl, fun hb => absurd rfl hb⟩
    · refine ⟨hq ▸ h1, fun _ => ?_⟩
      simp [hq]

/-- The invariant holds after scanning any line list. -/
theorem repairFold_inv (lines : List String) :
    RepInv (lines.foldl repairStep repairInit) := by
  suffices h : ∀ st, RepInv st → RepInv (lines.foldl repairStep st) from
    h repairInit ⟨Or.inl rfl, fun hb => absurd rfl hb⟩
  induction lines with
  | nil => exact fun st hst => hst
  | cons l ls ih => exact fun st hst => ih _ (repairStep_inv st l hst)

/-- C7 counterexample: the line `insert_text('abc'')` has an odd quote
count, so end of input is reached with an unbalanced buffered call, yet no
closing quote and parenthesis are synthesized because the joined text
already ends with `')` — the claim's unconditional "synthesized closing
quote and closing parenthesis appended" fails. -/
theorem repair_already_closed_not_appended :
    repair_multiline_calls ["insert_text('abc'')"] = ["insert_text('abc'')"] ∧
    repair_multiline_calls ["insert_text('abc'')"] ≠ ["insert_text('abc'')')"] ∧
    (["insert_text('abc'')"].foldl repairStep repairInit).buffer ≠ [] := by
  refine ⟨by decide, by decide, by decide⟩

/-- C7 amended: the repair scan is a total function (it terminates on every
finite line list and raises nothing), and whenever end of input is reached
with a still-unbalanced quoted argument, the final emitted line is the
buffered lines, each stripped, joined by single spaces, with the closing
quote and parenthesis appended unless the joined text (after strip) already
ends with that closing pair — so the final line always ends with the
pending quote followed by `)`. -/
theorem repair_unbalanced_eof (lines : List String)
    (hb : (lines.foldl repairStep repairInit).buffer ≠ []) :
    ∃ q fin,
      (lines.foldl repairStep repairInit).quote = some q ∧ (q = '\'' ∨ q = '"') ∧
      repair_multiline_calls lines =
        (lines.foldl repairStep repairInit).repaired ++ [fin] ∧
      (fin = joinStripSpace (lines.foldl repairStep repairInit).buffer ∨
       fin = joinStripSpace (lines.foldl repairStep repairInit).buffer ++ closePair q) ∧
      strEnds (pyStrip fin) (closePair q) = true := by
  obtain ⟨h1, h2⟩ := repairFold_inv lines
  have hqne := h2 hb
  have hfin : repair_multiline_calls lines =
      repairFinish (lines.foldl repairStep repairInit) := rfl
  have hc1 : closePair '\'' = "')" := rfl
  have hc2 : closePair '"' = "\")" := rfl
  rcases h1 with h1 | h1 | h1
  · exact absurd h1 hqne
  · by_cases he : strEnds (pyStrip (joinStripSpace
        (lines.foldl repairStep repairInit).buffer)) "')" = true
    · refine ⟨'\'', joinStripSpace (lines.foldl repairStep repairInit).buffer, h1,
        Or.inl rfl, ?_, Or.inl rfl, ?_⟩
      · rw [hfin]
        unfold repairFinish
        rw [if_neg hb]
        simp [h1, he]
      · rw [hc1]; exact he
    · refine ⟨'\'', joinStripSpace (lines.foldl repairStep repairInit).buffer ++ "')", h1,
        Or.inl rfl, ?_, Or.inr (by rw [hc1]), ?_⟩
      · rw [hfin]
        unfold repairFinish
        rw [if_neg hb]
        simp [h1, he]
      · have := strEnds_strip_close (joinStripSpace
          (lines.foldl repairStep repairInit).buffer) '\'' (by decide)
        rw [hc1] at this ⊢
        exact this
  · by_cases he : strEnds (pyStrip (joinStripSpace
        (lines.foldl repairStep repairInit).buffer)) "\")" = true
    · refine ⟨'"', joinStripSpace (lines.foldl repairStep repairInit).buffer, h1,
        Or.inr rfl, ?_, Or.inl rfl, ?_⟩
      · rw [hfin]
        unfold repairFinish
        rw [if_neg hb]
        simp [h1, he]
      · rw [hc2]; exact he
    · refine ⟨'"', joinStripSpace (lines.foldl repairStep repairInit).buffer ++ "\")", h1,
        Or.inr rfl, ?_, Or.inr (by rw [hc2]), ?_⟩
      · rw [hfin]
        unfold repairFinish
        rw [if_neg hb]
        simp [h1, he]
      · have := strEnds_strip_close (joinStripSpace
          (lines.foldl repairStep repairInit).buffer) '"' (by decide)
        rw [hc2] at this ⊢
        exact this

/-- C7 witness: a two-line unterminated `insert_text` call is flushed at end
of input as one line with the synthesized `')` appended. -/
theorem repair_unbalanced_eof_witness :
    repair_multiline_calls ["insert_text('Hello", "world"] =
      ["insert_text('Hello world')"] ∧
    strEnds (pyStrip "insert_text('Hello world')") (closePair '\'') = true := by
  have h := repair_unbalanced_eof ["insert_text('Hello", "world"] (by decide)
  refine ⟨by decide, ?_⟩
  obtain ⟨q, fin, hq, _, heq, _, hend⟩ := h
  have hq' : q = '\'' := by
    have hcq : (["insert_text('Hello", "world"].foldl repairStep repairInit).quote =
        some '\'' := by decide
    rw [hcq] at hq
    exact (Option.some_inj.mp hq).symm
  have hrep : (["insert_text('Hello", "world"].foldl repairStep repairInit).repaired =
      [] := by decide
  have h2 : repair_multiline_calls ["insert_text('Hello", "world"] =
      ["insert_text('Hello world')"] := by decide
  rw [hrep, h2] at heq
  have hfin : fin = "insert_text('Hello world')" := by
    have := heq.symm
    simpa using this
  rw [hq'] at hend
  rw [← hfin]
  exact hend

/-! ### C4: order of the per-text-insertion steps -/

/-- Step (1) on a literal intermediate value, in pair-projection form. -/
theorem textStage1_eval (s : CState) (o : List SinkOp) (t : String) (k : Bool) :
    textStage1 ⟨s, o, t, k⟩ =
      ⟨(if s.lineStart ∧ strStarts t "\t" ∧ s.firstLineWritten then hwpInsertParagraph s
        else (s, [])).1,
       o ++ (if s.lineStart ∧ strStarts t "\t" ∧ s.firstLineWritten then hwpInsertParagraph s
        else (s, [])).2, t, k⟩ := by
  by_cases c : s.lineStart ∧ strStarts t "\t" ∧ s.firstLineWritten
  · simp [textStage1, c]
  · simp [textStage1, c]

/-- Step (2) on a literal intermediate value, in pair-projection form. -/
theorem textStage2_eval (s : CState) (o : List SinkOp) (t : String) :
    textStage2 ⟨s, o, t, false⟩ =
      (let p1 :=
        if s.lineStart ∧ s.alignRightNextLine then
          ({ s with alignRightNextLine := false, lineRightAligned := true },
           setAlignOps "right", true)
        else (s, [], false)
       let p2 :=
        if p1.1.lineStart ∧ p1.1.alignJustifyNextLine then
          ({ p1.1 with alignJustifyNextLine := false, lineJustifyAligned := true },
           setAlignOps "justify")
        else (p1.1, [])
       let s4 :=
        if p2.1.lineStart then
          if strStarts t "\t" then { p2.1 with lineStart := false }
          else if strStarts t " " then { p2.1 with lineStart := false }
          else p2.1
        else p2.1
       let t1 :=
        if p1.2.2 then (t.toList.dropWhile (fun c => c = ' ' || c = '\t')).asString
        else t
       ⟨s4, o ++ p1.2.1 ++ p2.2, t1, p1.2.2⟩) := by
  dsimp only [textStage2]
  by_cases c1 : s.lineStart ∧ s.alignRightNextLine
  · rw [if_pos c1, if_pos c1]
    dsimp only
    by_cases c2 : s.lineStart ∧ s.alignJustifyNextLine
    · rw [if_pos c2, if_pos c2]
    · rw [if_neg c2, if_neg c2]
      simp [List.append_assoc]
  · rw [if_neg c1, if_neg c1]
    dsimp only
    by_cases c2 : s.lineStart ∧ s.alignJustifyNextLine
    · rw [if_pos c2, if_pos c2]
      simp [List.append_assoc]
    · rw [if_neg c2, if_neg c2]
      simp [List.append_assoc]

/-- Step (4) on a literal intermediate value. -/
theorem textStage4_eval (s : CState) (o : List SinkOp) (t : String) (k : Bool) :
    textStage4 ⟨s, o, t, k⟩ =
      ⟨s, o,
       if s.lastWasEquation ∧ strStarts t " " then (t.toList.drop 1).asString else t, k⟩ := by
  by_cases c : s.lastWasEquation ∧ strStarts t " "
  · simp [textStage4, c]
  · simp [textStage4, c]

/-- Step (3) on a literal intermediate value, in pair-projection form. -/
theorem textStage3_eval (s : CState) (o : List SinkOp) (t : String) (k : Bool) :
    textStage3 ⟨s, o, t, k⟩ =
      ⟨(if s.inConditionBox ∧ s.boxLineStart ∧ strStarts t " " = false then
          ({ s with boxLineStart := false }, " " ++ t)
        else (s, t)).1,
       o,
       (if s.inConditionBox ∧ s.boxLineStart ∧ strStarts t " " = false then
          ({ s with boxLineStart := false }, " " ++ t)
        else (s, t)).2, k⟩ := by
  by_cases c : s.inConditionBox ∧ s.boxLineStart ∧ strStarts t " " = false
  · simp [textStage3, c]
  · simp [textStage3, c]

/-- Step (5) on a literal intermediate value. -/
theorem textStage5_eval (s : CState) (o : List SinkOp) (t : String) (k : Bool) :
    textStage5 ⟨s, o, t, k⟩ =
      ({ s with lineStart := false, lastWasEquation := false, firstLineWritten := true },
       o ++ insertTextRawOps t) := rfl

/-- The monolithic `insert_text` embedding with its top guard discharged. -/
theorem hwpInsertText_body (st : CState) (text0 : String) (h : ¬ text0 = "") :
    hwpInsertText st text0 =
      (let text := pyTabNorm text0
       let p0 :=
        if st.lineStart ∧ strStarts text "\t" ∧ st.firstLineWritten then hwpInsertParagraph st
        else (st, [])
       let st := p0.1
       let ops0 := p0.2
       let p1 :=
        if st.lineStart ∧ st.alignRightNextLine then
          ({ st with alignRightNextLine := false, lineRightAligned := true },
           setAlignOps "right", true)
        else (st, [], false)
       let st := p1.1
       let ops1 := p1.2.1
       let skipAutoIndentRight := p1.2.2
       let p2 :=
        if st.lineStart ∧ st.alignJustifyNextLine then
          ({ st with alignJustifyNextLine := false, lineJustifyAligned := true },
           setAlignOps "justify")
        else (st, [])
       let st := p2.1
       let ops2 := p2.2
       let st :=
        if st.lineStart then
          if strStarts text "\t" then { st with lineStart := false }
          else if strStarts text " " then { st with lineStart := false }
          else st
        else st
       let text :=
        if skipAutoIndentRight then (text.toList.dropWhile (fun c => c = ' ' || c = '\t')).asString
        else text
       let text :=
        if st.lastWasEquation ∧ strStarts text " " then (text.toList.drop 1).asString else text
       let p3 :=
        if st.inConditionBox ∧ st.boxLineStart ∧ strStarts text " " = false then
          ({ st with boxLineStart := false }, " " ++ text)
        else (st, text)
       let st := p3.1
       let text := p3.2
       ({ st with lineStart := false, lastWasEquation := false, firstLineWritten := true },
        ops0 ++ ops1 ++ ops2 ++ insertTextRawOps text)) := by
  simp only [hwpInsertText, if_neg h]

set_option maxHeartbeats 1000000 in
/-- C4 (amended): for every composer state and text, `insert_text` applies the
five per-text-insertion steps in the order (1) tab paragraph break, (2) pending
alignment and line-start bookkeeping, then the equation leading-space drop (4),
then the box space prefix (3), then the emit (5) — i.e. with steps (3) and (4)
swapped relative to the claimed order. -/
theorem insert_text_steps_in_code_order (st : CState) (text0 : String) :
    hwpInsertText st text0 = insertTextStagedCodeOrder st text0 := by
  by_cases h0 : text0 = ""
  · simp [hwpInsertText, insertTextStagedCodeOrder, h0]
  · simp only [insertTextStagedCodeOrder, if_neg h0]
    rw [textStage1_eval, List.nil_append, textStage2_eval]
    rw [hwpInsertText_body st text0 h0]
    lift_lets
    intro text p0 st1 ops0 pp1 st2 ops1 skip pp2 st3 ops2 st4 w1 w2 p3 st5 w3
    intros
    rw [textStage4_eval, textStage3_eval, textStage5_eval]

/-- C4 counterexample: after an equation, inside a box at box-line-start, the
source drops the leading space of `" x"` first and then prefixes the box
space; the spec's order (box prefix (3) before equation drop (4)) would skip
the prefix (the text already starts with a space) and then drop that space,
emitting a different text and leaving `boxLineStart` set. -/
theorem insert_text_spec_order_refuted :
    hwpInsertText
      { cInit with inConditionBox := true, boxLineStart := true, lineStart := false,
                   firstLineWritten := true, lastWasEquation := true } " x" ≠
    insertTextStagedSpecOrder
      { cInit with inConditionBox := true, boxLineStart := true, lineStart := false,
                   firstLineWritten := true, lastWasEquation := true } " x" := by decide

/-- Splitting an append-cons equation past a block not containing the element. -/
theorem chunkSkip {α : Type} :
    ∀ (blk : List α) (tr pre suf : List α) (x : α),
      blk ++ tr = pre ++ x :: suf → x ∉ blk →
      ∃ pre2, pre = blk ++ pre2 ∧ tr = pre2 ++ x :: suf
  | [], tr, pre, suf, x, h, _ => ⟨pre, by simp, by simpa using h⟩
  | b :: blk, tr, pre, suf, x, h, hx => by
    cases pre with
    | nil =>
      exfalso
      simp at h
      exact hx (h.1 ▸ List.mem_cons_self b blk)
    | cons a pre' =>
      simp at h
      obtain ⟨rfl, h2⟩ := h
      obtain ⟨pre2, rfl, h3⟩ := chunkSkip blk tr pre' suf x h2 (fun hm => hx (List.mem_cons_of_mem b hm))
      exact ⟨pre2, by simp, h3⟩

/-- An append-cons equation against a list ending in its only candidate element. -/
theorem chunkLast {α : Type} :
    ∀ (blk : List α) (e x : α) (pre suf : List α),
      blk ++ [e] = pre ++ x :: suf → x ∉ blk →
      pre = blk ∧ x = e ∧ suf = []
  | [], e, x, pre, suf, h, _ => by
    cases pre with
    | nil => simp at h; exact ⟨rfl, h.1.symm, h.2⟩
    | cons a pre' => simp at h
  | b :: blk, e, x, pre, suf, h, hx => by
    cases pre with
    | nil =>
      exfalso
      simp at h
      exact hx (h.1 ▸ List.mem_cons_self b blk)
    | cons a pre' =>
      simp at h
      obtain ⟨rfl, h2⟩ := h
      obtain ⟨rfl, rfl, rfl⟩ := chunkLast blk e x pre' suf h2
        (fun hm => hx (List.mem_cons_of_mem b hm))
      exact ⟨rfl, rfl, rfl⟩

/-- In every worker trace, an `errorOut` event is the final event. -/
theorem wk_error_last (att : Nat → Nat → Option String) :
    ∀ (jobs : List Nat) (pos : Nat) (acq : Bool) (pre : List WorkEv) (m : String)
      (suf : List WorkEv),
      typingWorkerRun att pos acq jobs = pre ++ WorkEv.errorOut m :: suf → suf = [] := by
  intro jobs
  induction jobs with
  | nil => intro pos acq pre m suf h; simp [typingWorkerRun] at h
  | cons idx rest ih =>
    intro pos acq pre m suf h
    simp only [typingWorkerRun] at h
    cases hatt : att pos 1 with
    | none =>
      rw [hatt] at h
      dsimp only at h
      rw [show ((if acq then ([] : List WorkEv) else [WorkEv.acquire]) ++
          WorkEv.started idx :: WorkEv.attempt idx 1 :: WorkEv.finished idx ::
            typingWorkerRun att (pos + 1) true rest) =
        ((if acq then ([] : List WorkEv) else [WorkEv.acquire]) ++
          [WorkEv.started idx, WorkEv.attempt idx 1, WorkEv.finished idx]) ++
            typingWorkerRun att (pos + 1) true rest from by simp] at h
      obtain ⟨pre2, rfl, h2⟩ := chunkSkip _ _ _ _ _ h (by cases acq <;> simp)
      exact ih (pos + 1) true pre2 m suf h2
    | some msg =>
      rw [hatt] at h
      dsimp only at h
      by_cases hr : isRpcUnavailableMessage msg
      · rw [if_pos hr] at h
        cases hatt2 : att pos 2 with
        | none =>
          rw [hatt2] at h
          dsimp only at h
          rw [show ((if acq then ([] : List WorkEv) else [WorkEv.acquire]) ++
              WorkEv.started idx :: WorkEv.attempt idx 1 :: WorkEv.raised msg ::
                WorkEv.acquire :: WorkEv.attempt idx 2 :: WorkEv.finished idx ::
                typingWorkerRun att (pos + 1) true rest) =
            ((if acq then ([] : List WorkEv) else [WorkEv.acquire]) ++
              [WorkEv.started idx, WorkEv.attempt idx 1, WorkEv.raised msg,
               WorkEv.acquire, WorkEv.attempt idx 2, WorkEv.finished idx]) ++
                typingWorkerRun att (pos + 1) true rest from by simp] at h
          obtain ⟨pre2, rfl, h2⟩ := chunkSkip _ _ _ _ _ h (by cases acq <;> simp)
          exact ih (pos + 1) true pre2 m suf h2
        | some m2 =>
          rw [hatt2] at h
          dsimp only at h
          rw [show ((if acq then ([] : List WorkEv) else [WorkEv.acquire]) ++
              WorkEv.started idx :: WorkEv.attempt idx 1 :: WorkEv.raised msg ::
                WorkEv.acquire :: WorkEv.attempt idx 2 ::
                [WorkEv.raised m2, WorkEv.errorOut m2]) =
            ((if acq then ([] : List WorkEv) else [WorkEv.acquire]) ++
              [WorkEv.started idx, WorkEv.attempt idx 1, WorkEv.raised msg,
               WorkEv.acquire, WorkEv.attempt idx 2, WorkEv.raised m2]) ++
                [WorkEv.errorOut m2] from by simp] at h
          obtain ⟨-, -, rfl⟩ := chunkLast _ _ _ _ _ h (by cases acq <;> simp)
          rfl
      · rw [if_neg hr] at h
        rw [show ((if acq then ([] : List WorkEv) else [WorkEv.acquire]) ++
            WorkEv.started idx :: WorkEv.attempt idx 1 :: WorkEv.raised msg ::
              [WorkEv.errorOut msg]) =
          ((if acq then ([] : List WorkEv) else [WorkEv.acquire]) ++
            [WorkEv.started idx, WorkEv.attempt idx 1, WorkEv.raised msg]) ++
              [WorkEv.errorOut msg] from by simp] at h
        obtain ⟨-, -, rfl⟩ := chunkLast _ _ _ _ _ h (by cases acq <;> simp)
        rfl

/-- Every whole-script attempt in a worker trace is attempt 1 or attempt 2. -/
theorem wk_attempt_bounded (att : Nat → Nat → Option String) :
    ∀ (jobs : List Nat) (pos : Nat) (acq : Bool) (i k : Nat),
      WorkEv.attempt i k ∈ typingWorkerRun att pos acq jobs → k = 1 ∨ k = 2 := by
  intro jobs
  induction jobs with
  | nil => intro pos acq i k h; simp [typingWorkerRun] at h
  | cons idx rest ih =>
    intro pos acq i k h
    simp only [typingWorkerRun] at h
    cases hatt : att pos 1 with
    | none =>
      rw [hatt] at h
      dsimp only at h
      rw [List.mem_append] at h
      rcases h with h | h
      · cases acq <;> simp at h
      · simp at h
        rcases h with ⟨-, rfl⟩ | h
        · exact Or.inl rfl
        · exact ih (pos + 1) true i k h
    | some msg =>
      rw [hatt] at h
      dsimp only at h
      by_cases hr : isRpcUnavailableMessage msg
      · rw [if_pos hr] at h
        cases hatt2 : att pos 2 with
        | none =>
          rw [hatt2] at h
          dsimp only at h
          rw [List.mem_append] at h
          rcases h with h | h
          · cases acq <;> simp at h
          · simp at h
            rcases h with ⟨-, rfl⟩ | ⟨-, rfl⟩ | h
            · exact Or.inl rfl
            · exact Or.inr rfl
            · exact ih (pos + 1) true i k h
        | some m2 =>
          rw [hatt2] at h
          dsimp only at h
          rw [List.mem_append] at h
          rcases h with h | h
          · cases acq <;> simp at h
          · simp at h
            rcases h with ⟨-, rfl⟩ | ⟨-, rfl⟩
            · exact Or.inl rfl
            · exact Or.inr rfl
      · rw [if_neg hr] at h
        rw [List.mem_append] at h
        rcases h with h | h
        · cases acq <;> simp at h
        · simp at h
          obtain ⟨-, rfl⟩ := h
          exact Or.inl rfl

/-- A first attempt failing with a transport-unavailable message is followed
immediately by a fresh acquire and a second attempt of the same job. -/
theorem wk_rpc_retry (att : Nat → Nat → Option String) :
    ∀ (jobs : List Nat) (pos : Nat) (acq : Bool) (pre : List WorkEv) (i : Nat) (m : String)
      (suf : List WorkEv),
      typingWorkerRun att pos acq jobs =
        pre ++ WorkEv.attempt i 1 :: WorkEv.raised m :: suf →
      isRpcUnavailableMessage m = true →
      ∃ suf2, suf = WorkEv.acquire :: WorkEv.attempt i 2 :: suf2 := by
  intro jobs
  induction jobs with
  | nil => intro pos acq pre i m suf h _; simp [typingWorkerRun] at h
  | cons idx rest ih =>
    intro pos acq pre i m suf h hm
    simp only [typingWorkerRun] at h
    cases hatt : att pos 1 with
    | none =>
      rw [hatt] at h
      dsimp only at h
      rw [show ((if acq then ([] : List WorkEv) else [WorkEv.acquire]) ++
          WorkEv.started idx :: WorkEv.attempt idx 1 :: WorkEv.finished idx ::
            typingWorkerRun att (pos + 1) true rest) =
        ((if acq then ([] : List WorkEv) else [WorkEv.acquire]) ++
          [WorkEv.started idx]) ++ WorkEv.attempt idx 1 :: WorkEv.finished idx ::
            typingWorkerRun att (pos + 1) true rest from by simp] at h
      obtain ⟨pre2, rfl, h2⟩ := chunkSkip _ _ _ _ _ h (by cases acq <;> simp)
      cases pre2 with
      | nil => simp at h2
      | cons e pre3 =>
        have h3 := List.tail_eq_of_cons_eq h2
        obtain ⟨pre4, rfl, h4⟩ := chunkSkip [WorkEv.finished idx] _ _ _ _ h3 (by simp)
        exact ih (pos + 1) true pre4 i m suf h4 hm
    | some msg =>
      rw [hatt] at h
      dsimp only at h
      by_cases hr : isRpcUnavailableMessage msg
      · rw [if_pos hr] at h
        rw [show ((if acq then ([] : List WorkEv) else [WorkEv.acquire]) ++
            WorkEv.started idx :: WorkEv.attempt idx 1 :: WorkEv.raised msg ::
              WorkEv.acquire :: WorkEv.attempt idx 2 ::
              (match att pos 2 with
               | none => WorkEv.finished idx :: typingWorkerRun att (pos + 1) true rest
               | some m2 => [WorkEv.raised m2, WorkEv.errorOut m2])) =
          ((if acq then ([] : List WorkEv) else [WorkEv.acquire]) ++
            [WorkEv.started idx]) ++ WorkEv.attempt idx 1 :: WorkEv.raised msg ::
              WorkEv.acquire :: WorkEv.attempt idx 2 ::
              (match att pos 2 with
               | none => WorkEv.finished idx :: typingWorkerRun att (pos + 1) true rest
               | some m2 => [WorkEv.raised m2, WorkEv.errorOut m2]) from by simp] at h
        obtain ⟨pre2, rfl, h2⟩ := chunkSkip _ _ _ _ _ h (by cases acq <;> simp)
        cases pre2 with
        | nil =>
          simp at h2
          obtain ⟨rfl, rfl, h3⟩ := h2
          exact ⟨_, h3.symm⟩
        | cons e pre3 =>
          have he := List.head_eq_of_cons_eq h2
          have h3 := List.tail_eq_of_cons_eq h2
          cases hatt2 : att pos 2 with
          | none =>
            rw [hatt2] at h3
            dsimp only at h3
            rw [show (WorkEv.raised msg :: WorkEv.acquire :: WorkEv.attempt idx 2 ::
                WorkEv.finished idx :: typingWorkerRun att (pos + 1) true rest) =
              [WorkEv.raised msg, WorkEv.acquire, WorkEv.attempt idx 2,
               WorkEv.finished idx] ++ typingWorkerRun att (pos + 1) true rest
              from by simp] at h3
            obtain ⟨pre4, rfl, h4⟩ := chunkSkip _ _ _ _ _ h3 (by simp)
            exact ih (pos + 1) true pre4 i m suf h4 hm
          | some m2 =>
            rw [hatt2] at h3
            dsimp only at h3
            rw [show (WorkEv.raised msg :: WorkEv.acquire :: WorkEv.attempt idx 2 ::
                [WorkEv.raised m2, WorkEv.errorOut m2]) =
              [WorkEv.raised msg, WorkEv.acquire, WorkEv.attempt idx 2,
               WorkEv.raised m2] ++ [WorkEv.errorOut m2] from by simp] at h3
            obtain ⟨-, hx, -⟩ := chunkLast _ _ _ _ _ h3 (by simp)
            simp at hx
      · rw [if_neg hr] at h
        rw [show ((if acq then ([] : List WorkEv) else [WorkEv.acquire]) ++
            WorkEv.started idx :: WorkEv.attempt idx 1 :: WorkEv.raised msg ::
              [WorkEv.errorOut msg]) =
          ((if acq then ([] : List WorkEv) else [WorkEv.acquire]) ++
            [WorkEv.started idx]) ++ WorkEv.attempt idx 1 :: WorkEv.raised msg ::
              [WorkEv.errorOut msg] from by simp] at h
        obtain ⟨pre2, rfl, h2⟩ := chunkSkip _ _ _ _ _ h (by cases acq <;> simp)
        cases pre2 with
        | nil =>
          simp at h2
          obtain ⟨rfl, rfl, -⟩ := h2
          exact absurd hm (by simp [hr])
        | cons e pre3 =>
          have h3 := List.tail_eq_of_cons_eq h2
          rw [show (WorkEv.raised msg :: [WorkEv.errorOut msg]) =
            [WorkEv.raised msg] ++ [WorkEv.errorOut msg] from by simp] at h3
          obtain ⟨-, hx, -⟩ := chunkLast _ _ _ _ _ h3 (by simp)
          simp at hx

/-- A failure on the second attempt ends the trace with that error. -/
theorem wk_retry_fatal (att : Nat → Nat → Option String) :
    ∀ (jobs : List Nat) (pos : Nat) (acq : Bool) (pre : List WorkEv) (i : Nat) (m2 : String)
      (suf : List WorkEv),
      typingWorkerRun att pos acq jobs =
        pre ++ WorkEv.attempt i 2 :: WorkEv.raised m2 :: suf →
      suf = [WorkEv.errorOut m2] := by
  intro jobs
  induction jobs with
  | nil => intro pos acq pre i m2 suf h; simp [typingWorkerRun] at h
  | cons idx rest ih =>
    intro pos acq pre i m2 suf h
    simp only [typingWorkerRun] at h
    cases hatt : att pos 1 with
    | none =>
      rw [hatt] at h
      dsimp only at h
      rw [show ((if acq then ([] : List WorkEv) else [WorkEv.acquire]) ++
          WorkEv.started idx :: WorkEv.attempt idx 1 :: WorkEv.finished idx ::
            typingWorkerRun att (pos + 1) true rest) =
        ((if acq then ([] : List WorkEv) else [WorkEv.acquire]) ++
          [WorkEv.started idx, WorkEv.attempt idx 1, WorkEv.finished idx]) ++
            typingWorkerRun att (pos + 1) true rest from by simp] at h
      obtain ⟨pre2, rfl, h2⟩ := chunkSkip _ _ _ _ _ h (by cases acq <;> simp)
      exact ih (pos + 1) true pre2 i m2 suf h2
    | some msg =>
      rw [hatt] at h
      dsimp only at h
      by_cases hr : isRpcUnavailableMessage msg
      · rw [if_pos hr] at h
        rw [show ((if acq then ([] : List WorkEv) else [WorkEv.acquire]) ++
            WorkEv.started idx :: WorkEv.attempt idx 1 :: WorkEv.raised msg ::
              WorkEv.acquire :: WorkEv.attempt idx 2 ::
              (match att pos 2 with
               | none => WorkEv.finished idx :: typingWorkerRun att (pos + 1) true rest
               | some m3 => [WorkEv.raised m3, WorkEv.errorOut m3])) =
          ((if acq then ([] : List WorkEv) else [WorkEv.acquire]) ++
            [WorkEv.started idx, WorkEv.attempt idx 1, WorkEv.raised msg,
             WorkEv.acquire]) ++ WorkEv.attempt idx 2 ::
              (match att pos 2 with
               | none => WorkEv.finished idx :: typingWorkerRun att (pos + 1) true rest
               | some m3 => [WorkEv.raised m3, WorkEv.errorOut m3]) from by simp] at h
        obtain ⟨pre2, rfl, h2⟩ := chunkSkip _ _ _ _ _ h (by cases acq <;> simp)
        cases hatt2 : att pos 2 with
        | none =>
          rw [hatt2] at h2
          dsimp only at h2
          cases pre2 with
          | nil => simp at h2
          | cons e pre3 =>
            have h3 := List.tail_eq_of_cons_eq h2
            obtain ⟨pre4, rfl, h4⟩ := chunkSkip [WorkEv.finished idx] _ _ _ _ h3 (by simp)
            exact ih (pos + 1) true pre4 i m2 suf h4
        | some m3 =>
          rw [hatt2] at h2
          dsimp only at h2
          cases pre2 with
          | nil =>
            simp at h2
            obtain ⟨-, rfl, rfl⟩ := h2
            rfl
          | cons e pre3 =>
            have h3 := List.tail_eq_of_cons_eq h2
            rw [show ([WorkEv.raised m3, WorkEv.errorOut m3] : List WorkEv) =
              [WorkEv.raised m3] ++ [WorkEv.errorOut m3] from by simp] at h3
            obtain ⟨-, hx, -⟩ := chunkLast _ _ _ _ _ h3 (by simp)
            simp at hx
      · rw [if_neg hr] at h
        rw [show ((if acq then ([] : List WorkEv) else [WorkEv.acquire]) ++
            WorkEv.started idx :: WorkEv.attempt idx 1 :: WorkEv.raised msg ::
              [WorkEv.errorOut msg]) =
          ((if acq then ([] : List WorkEv) else [WorkEv.acquire]) ++
            [WorkEv.started idx, WorkEv.attempt idx 1, WorkEv.raised msg]) ++
              [WorkEv.errorOut msg] from by simp] at h
        obtain ⟨pre2, rfl, h2⟩ := chunkSkip _ _ _ _ _ h (by cases acq <;> simp)
        obtain ⟨-, hx, -⟩ := chunkLast [] _ _ _ _ h2 (by simp)
        simp at hx

/-- A first-attempt failure not classified transport-unavailable ends the
trace with that error. -/
theorem wk_nonrpc_fatal (att : Nat → Nat → Option String) :
    ∀ (jobs : List Nat) (pos : Nat) (acq : Bool) (pre : List WorkEv) (i : Nat) (m : String)
      (suf : List WorkEv),
      typingWorkerRun att pos acq jobs =
        pre ++ WorkEv.attempt i 1 :: WorkEv.raised m :: suf →
      isRpcUnavailableMessage m = false →
      suf = [WorkEv.errorOut m] := by
  intro jobs
  induction jobs with
  | nil => intro pos acq pre i m suf h _; simp [typingWorkerRun] at h
  | cons idx rest ih =>
    intro pos acq pre i m suf h hm
    simp only [typingWorkerRun] at h
    cases hatt : att pos 1 with
    | none =>
      rw [hatt] at h
      dsimp only at h
      rw [show ((if acq then ([] : List WorkEv) else [WorkEv.acquire]) ++
          WorkEv.started idx :: WorkEv.attempt idx 1 :: WorkEv.finished idx ::
            typingWorkerRun att (pos + 1) true rest) =
        ((if acq then ([] : List WorkEv) else [WorkEv.acquire]) ++
          [WorkEv.started idx]) ++ WorkEv.attempt idx 1 :: WorkEv.finished idx ::
            typingWorkerRun att (pos + 1) true rest from by simp] at h
      obtain ⟨pre2, rfl, h2⟩ := chunkSkip _ _ _ _ _ h (by cases acq <;> simp)
      cases pre2 with
      | nil => simp at h2
      | cons e pre3 =>
        have h3 := List.tail_eq_of_cons_eq h2
        obtain ⟨pre4, rfl, h4⟩ := chunkSkip [WorkEv.finished idx] _ _ _ _ h3 (by simp)
        exact ih (pos + 1) true pre4 i m suf h4 hm
    | some msg =>
      rw [hatt] at h
      dsimp only at h
      by_cases hr : isRpcUnavailableMessage msg
      · rw [if_pos hr] at h
        rw [show ((if acq then ([] : List WorkEv) else [WorkEv.acquire]) ++
            WorkEv.started idx :: WorkEv.attempt idx 1 :: WorkEv.raised msg ::
              WorkEv.acquire :: WorkEv.attempt idx 2 ::
              (match att pos 2 with
               | none => WorkEv.finished idx :: typingWorkerRun att (pos + 1) true rest
               | some m2 => [WorkEv.raised m2, WorkEv.errorOut m2])) =
          ((if acq then ([] : List WorkEv) else [WorkEv.acquire]) ++
            [WorkEv.started idx]) ++ WorkEv.attempt idx 1 :: WorkEv.raised msg ::
              WorkEv.acquire :: WorkEv.attempt idx 2 ::
              (match att pos 2 with
               | none => WorkEv.finished idx :: typingWorkerRun att (pos + 1) true rest
               | some m2 => [WorkEv.raised m2, WorkEv.errorOut m2]) from by simp] at h
        obtain ⟨pre2, rfl, h2⟩ := chunkSkip _ _ _ _ _ h (by cases acq <;> simp)
        cases pre2 with
        | nil =>
          simp at h2
          obtain ⟨-, rfl, -⟩ := h2
          exact absurd hm (by simp [hr])
        | cons e pre3 =>
          have h3 := List.tail_eq_of_cons_eq h2
          cases hatt2 : att pos 2 with
          | none =>
            rw [hatt2] at h3
            dsimp only at h3
            rw [show (WorkEv.raised msg :: WorkEv.acquire :: WorkEv.attempt idx 2 ::
                WorkEv.finished idx :: typingWorkerRun att (pos + 1) true rest) =
              [WorkEv.raised msg, WorkEv.acquire, WorkEv.attempt idx 2,
               WorkEv.finished idx] ++ typingWorkerRun att (pos + 1) true rest
              from by simp] at h3
            obtain ⟨pre4, rfl, h4⟩ := chunkSkip _ _ _ _ _ h3 (by simp)
            exact ih (pos + 1) true pre4 i m suf h4 hm
          | some m2 =>
            rw [hatt2] at h3
            dsimp only at h3
            rw [show (WorkEv.raised msg :: WorkEv.acquire :: WorkEv.attempt idx 2 ::
                [WorkEv.raised m2, WorkEv.errorOut m2]) =
              [WorkEv.raised msg, WorkEv.acquire, WorkEv.attempt idx 2,
               WorkEv.raised m2] ++ [WorkEv.errorOut m2] from by simp] at h3
            obtain ⟨-, hx, -⟩ := chunkLast _ _ _ _ _ h3 (by simp)
            simp at hx
      · rw [if_neg hr] at h
        rw [show ((if acq then ([] : List WorkEv) else [WorkEv.acquire]) ++
            WorkEv.started idx :: WorkEv.attempt idx 1 :: WorkEv.raised msg ::
              [WorkEv.errorOut msg]) =
          ((if acq then ([] : List WorkEv) else [WorkEv.acquire]) ++
            [WorkEv.started idx]) ++ WorkEv.attempt idx 1 :: WorkEv.raised msg ::
              [WorkEv.errorOut msg] from by simp] at h
        obtain ⟨pre2, rfl, h2⟩ := chunkSkip _ _ _ _ _ h (by cases acq <;> simp)
        cases pre2 with
        | nil =>
          simp at h2
          obtain ⟨-, rfl, rfl⟩ := h2
          rfl
        | cons e pre3 =>
          have h3 := List.tail_eq_of_cons_eq h2
          rw [show (WorkEv.raised msg :: [WorkEv.errorOut msg]) =
            [WorkEv.raised msg] ++ [WorkEv.errorOut msg] from by simp] at h3
          obtain ⟨-, hx, -⟩ := chunkLast _ _ _ _ _ h3 (by simp)
          simp at hx

/-- Every second attempt arises from a first attempt of the same job that
raised a transport-unavailable message, followed by a fresh acquire. -/
theorem wk_att2_context (att : Nat → Nat → Option String) :
    ∀ (jobs : List Nat) (pos : Nat) (acq : Bool) (pre : List WorkEv) (i : Nat)
      (suf : List WorkEv),
      typingWorkerRun att pos acq jobs = pre ++ WorkEv.attempt i 2 :: suf →
      ∃ pre2 m, pre = pre2 ++ [WorkEv.attempt i 1, WorkEv.raised m, WorkEv.acquire] ∧
        isRpcUnavailableMessage m = true := by
  intro jobs
  induction jobs with
  | nil => intro pos acq pre i suf h; simp [typingWorkerRun] at h
  | cons idx rest ih =>
    intro pos acq pre i suf h
    simp only [typingWorkerRun] at h
    cases hatt : att pos 1 with
    | none =>
      rw [hatt] at h
      dsimp only at h
      rw [show ((if acq then ([] : List WorkEv) else [WorkEv.acquire]) ++
          WorkEv.started idx :: WorkEv.attempt idx 1 :: WorkEv.finished idx ::
            typingWorkerRun att (pos + 1) true rest) =
        ((if acq then ([] : List WorkEv) else [WorkEv.acquire]) ++
          [WorkEv.started idx, WorkEv.attempt idx 1, WorkEv.finished idx]) ++
            typingWorkerRun att (pos + 1) true rest from by simp] at h
      obtain ⟨pre2, rfl, h2⟩ := chunkSkip _ _ _ _ _ h (by cases acq <;> simp)
      obtain ⟨pre3, m', hpre, hrpc⟩ := ih (pos + 1) true pre2 i suf h2
      subst hpre
      exact ⟨((if acq then ([] : List WorkEv) else [WorkEv.acquire]) ++
        [WorkEv.started idx, WorkEv.attempt idx 1, WorkEv.finished idx]) ++ pre3, m',
        by simp, hrpc⟩
    | some msg =>
      rw [hatt] at h
      dsimp only at h
      by_cases hr : isRpcUnavailableMessage msg
      · rw [if_pos hr] at h
        rw [show ((if acq then ([] : List WorkEv) else [WorkEv.acquire]) ++
            WorkEv.started idx :: WorkEv.attempt idx 1 :: WorkEv.raised msg ::
              WorkEv.acquire :: WorkEv.attempt idx 2 ::
              (match att pos 2 with
               | none => WorkEv.finished idx :: typingWorkerRun att (pos + 1) true rest
               | some m2 => [WorkEv.raised m2, WorkEv.errorOut m2])) =
          ((if acq then ([] : List WorkEv) else [WorkEv.acquire]) ++
            [WorkEv.started idx, WorkEv.attempt idx 1, WorkEv.raised msg,
             WorkEv.acquire]) ++ WorkEv.attempt idx 2 ::
              (match att pos 2 with
               | none => WorkEv.finished idx :: typingWorkerRun att (pos + 1) true rest
               | some m2 => [WorkEv.raised m2, WorkEv.errorOut m2]) from by simp] at h
        obtain ⟨pre2, rfl, h2⟩ := chunkSkip _ _ _ _ _ h (by cases acq <;> simp)
        cases pre2 with
        | nil =>
          simp at h2
          obtain ⟨rfl, -⟩ := h2
          exact ⟨(if acq then ([] : List WorkEv) else [WorkEv.acquire]) ++
            [WorkEv.started idx], msg, by simp, hr⟩
        | cons e pre3 =>
          have h3 := List.tail_eq_of_cons_eq h2
          cases hatt2 : att pos 2 with
          | none =>
            rw [hatt2] at h3
            dsimp only at h3
            have he := List.head_eq_of_cons_eq h2
            subst he
            obtain ⟨pre4, rfl, h4⟩ := chunkSkip [WorkEv.finished idx] _ _ _ _ h3 (by simp)
            obtain ⟨pre5, m', hpre, hrpc⟩ := ih (pos + 1) true pre4 i suf h4
            subst hpre
            exact ⟨((if acq then ([] : List WorkEv) else [WorkEv.acquire]) ++
              [WorkEv.started idx, WorkEv.attempt idx 1, WorkEv.raised msg,
               WorkEv.acquire]) ++ WorkEv.attempt idx 2 :: WorkEv.finished idx :: pre5,
              m', by simp, hrpc⟩
          | some m2 =>
            rw [hatt2] at h3
            dsimp only at h3
            rw [show ([WorkEv.raised m2, WorkEv.errorOut m2] : List WorkEv) =
              [WorkEv.raised m2] ++ [WorkEv.errorOut m2] from by simp] at h3
            obtain ⟨-, hx, -⟩ := chunkLast _ _ _ _ _ h3 (by simp)
            simp at hx
      · rw [if_neg hr] at h
        rw [show ((if acq then ([] : List WorkEv) else [WorkEv.acquire]) ++
            WorkEv.started idx :: WorkEv.attempt idx 1 :: WorkEv.raised msg ::
              [WorkEv.errorOut msg]) =
          ((if acq then ([] : List WorkEv) else [WorkEv.acquire]) ++
            [WorkEv.started idx, WorkEv.attempt idx 1, WorkEv.raised msg]) ++
              [WorkEv.errorOut msg] from by simp] at h
        obtain ⟨pre2, rfl, h2⟩ := chunkSkip _ _ _ _ _ h (by cases acq <;> simp)
        obtain ⟨-, hx, -⟩ := chunkLast [] _ _ _ _ h2 (by simp)
        simp at hx

/-- C8: in every serialized typing-worker run, (i) each job is attempted at
most twice, (ii) an emitted error ends the whole queue, (iii) every second
attempt of a job follows a first attempt of that same job that raised a
transport-unavailable message and a fresh sink acquire, (iv) a
transport-unavailable first failure is retried exactly once: fresh acquire
then a full re-run of the same script, (v) a failure not classified
transport-unavailable is surfaced and fatal, and (vi) a failure on the retry
is surfaced and fatal. -/
theorem worker_transport_retry_policy (att : Nat → Nat → Option String) (jobs : List Nat) :
    (∀ i k, WorkEv.attempt i k ∈ typingWorker att jobs → k = 1 ∨ k = 2) ∧
    (∀ pre m suf, typingWorker att jobs = pre ++ WorkEv.errorOut m :: suf → suf = []) ∧
    (∀ pre i suf, typingWorker att jobs = pre ++ WorkEv.attempt i 2 :: suf →
      ∃ pre2 m, pre = pre2 ++ [WorkEv.attempt i 1, WorkEv.raised m, WorkEv.acquire] ∧
        isRpcUnavailableMessage m = true) ∧
    (∀ pre i m suf,
      typingWorker att jobs = pre ++ WorkEv.attempt i 1 :: WorkEv.raised m :: suf →
      isRpcUnavailableMessage m = true →
      ∃ suf2, suf = WorkEv.acquire :: WorkEv.attempt i 2 :: suf2) ∧
    (∀ pre i m suf,
      typingWorker att jobs = pre ++ WorkEv.attempt i 1 :: WorkEv.raised m :: suf →
      isRpcUnavailableMessage m = false → suf = [WorkEv.errorOut m]) ∧
    (∀ pre i m2 suf,
      typingWorker att jobs = pre ++ WorkEv.attempt i 2 :: WorkEv.raised m2 :: suf →
      suf = [WorkEv.errorOut m2]) :=
  ⟨fun i k h => wk_attempt_bounded att jobs 0 false i k h,
   fun pre m suf h => wk_error_last att jobs 0 false pre m suf h,
   fun pre i suf h => wk_att2_context att jobs 0 false pre i suf h,
   fun pre i m suf h hm => wk_rpc_retry att jobs 0 false pre i m suf h hm,
   fun pre i m suf h hm => wk_nonrpc_fatal att jobs 0 false pre i m suf h hm,
   fun pre i m2 suf h => wk_retry_fatal att jobs 0 false pre i m2 suf h⟩

/-- C8 witness: a concrete transport-unavailable failure on the first job is
retried once and the queue completes. -/
theorem worker_transport_retry_policy_witness :
    ∃ suf2, ([WorkEv.acquire, WorkEv.attempt 5 2, WorkEv.finished 5] : List WorkEv) =
      WorkEv.acquire :: WorkEv.attempt 5 2 :: suf2 :=
  (worker_transport_retry_policy
      (fun pos k => if pos = 0 ∧ k = 1 then some "RPC server is unavailable." else none)
      [5]).2.2.2.1
    [WorkEv.acquire, WorkEv.started 5] 5 "RPC server is unavailable."
    [WorkEv.acquire, WorkEv.attempt 5 2, WorkEv.finished 5]
    (by decide) (by decide)

/-! ### C10: the insert_table rows/cols guard -/

/-- C10: a non-positive row or column count makes `insert_table` raise the
guard error before issuing any sink operation and with the composer state
unchanged; with `rows ≥ 1` and `cols ≥ 1` the guard branch is not taken and
no error is raised. -/
theorem insert_table_guard (st : CState) (rows cols : Int)
    (cd : Option (List (List String))) (ac ea : Bool) :
    (rows ≤ 0 ∨ cols ≤ 0 →
      hwpInsertTable st rows cols cd ac ea = (some tableGuardMsg, st, [])) ∧
    (1 ≤ rows → 1 ≤ cols → (hwpInsertTable st rows cols cd ac ea).1 = none) := by
  constructor
  · intro h
    simp only [hwpInsertTable, if_pos h]
  · intro h1 h2
    have hn : ¬ (rows ≤ 0 ∨ cols ≤ 0) := by omega
    simp only [hwpInsertTable, if_neg hn]

/-- C10 witness: a zero-row call raises the guard untouched, a 2×2 call does
not. -/
theorem insert_table_guard_witness :
    hwpInsertTable cInit 0 3 none false false = (some tableGuardMsg, cInit, []) ∧
    (hwpInsertTable cInit 2 2 none false false).1 = none :=
  ⟨(insert_table_guard cInit 0 3 none false false).1 (Or.inl (by decide)),
   (insert_table_guard cInit 2 2 none false false).2 (by decide) (by decide)⟩

/-- The argument scan never returns more remaining text than it was given. -/
theorem fbArgScan_len :
    ∀ (cs : List Char) (depth : Nat) (q : Option Char) (esc : Bool),
      (fbArgScan cs depth q esc).2.length ≤ cs.length := by
  intro cs
  induction cs with
  | nil => intro d q e; simp [fbArgScan]
  | cons c rest ih =>
    intro d q e
    simp only [fbArgScan]
    repeat' split
    all_goals first
      | exact Nat.le_succ_of_le (ih ..)
      | exact Nat.le_succ _

/-- Each scan step consumes at least one character. -/
theorem fbStep_shrink (o : FbInstr → Option String) (c : Char) (rest : List Char) :
    (fbStep o (c :: rest)).2.length < (c :: rest).length := by
  unfold fbStep
  cases hm : fbFirstMatch (c :: rest) with
  | none => simp
  | some name =>
    dsimp only
    calc (fbArgScan ((c :: rest).drop (name.length + 1)) 1 none false).2.length
        ≤ ((c :: rest).drop (name.length + 1)).length := fbArgScan_len ..
      _ ≤ rest.length := by simp [List.length_drop]
      _ < (c :: rest).length := by simp

/-- The scan loop stops on empty text whatever fuel is left. -/
theorem fbLoopAux_nil (o : FbInstr → Option String) (f : Nat) : fbLoopAux o f [] = [] := by
  cases f <;> rfl

/-- Fuel-insensitivity: any fuel at least the text length yields the same
trace, so the length-fuelled loop never stops early. -/
theorem fbLoopAux_congr (o : FbInstr → Option String) :
    ∀ (f1 f2 : Nat) (cs : List Char), cs.length ≤ f1 → cs.length ≤ f2 →
      fbLoopAux o f1 cs = fbLoopAux o f2 cs := by
  intro f1
  induction f1 with
  | zero =>
    intro f2 cs h1 h2
    have : cs = [] := List.eq_nil_of_length_eq_zero (Nat.le_zero.mp h1)
    subst this
    rw [fbLoopAux_nil, fbLoopAux_nil]
  | succ f1 ih =>
    intro f2 cs h1 h2
    cases cs with
    | nil => rw [fbLoopAux_nil, fbLoopAux_nil]
    | cons c rest =>
      cases f2 with
      | zero => simp at h2
      | succ f2 =>
        simp only [fbLoopAux]
        have hs := fbStep_shrink o c rest
        have hl1 : (fbStep o (c :: rest)).2.length ≤ f1 := by
          simp only [List.length_cons] at hs h1
          omega
        have hl2 : (fbStep o (c :: rest)).2.length ≤ f2 := by
          simp only [List.length_cons] at hs h2
          omega
        rw [ih f2 (fbStep o (c :: rest)).2 hl1 hl2]

/-- The text consumed by one step does not depend on controller outcomes. -/
theorem fbStep_snd_indep (o1 o2 : FbInstr → Option String) (cs : List Char) :
    (fbStep o1 cs).2 = (fbStep o2 cs).2 := by
  unfold fbStep
  cases fbFirstMatch cs <;> rfl

/-- The instruction recognized at one position does not depend on controller
outcomes: a failure is logged or swallowed, never propagated. -/
theorem fbBuildEvents_instrs (o1 o2 : FbInstr → Option String) (name argStr : String) :
    (fbBuildEvents o1 name argStr).map fbEventInstr =
      (fbBuildEvents o2 name argStr).map fbEventInstr := by
  simp only [fbBuildEvents]
  split_ifs
  · cases o1 (FbInstr.noArg name) <;> cases o2 (FbInstr.noArg name) <;> rfl
  · cases o1 (FbInstr.oneStr name (fbCoerceStr argStr)) <;>
      cases o2 (FbInstr.oneStr name (fbCoerceStr argStr)) <;> rfl
  · cases o1 (FbInstr.setBold (strContains (pyLower argStr) "true")) <;>
      cases o2 (FbInstr.setBold (strContains (pyLower argStr) "true")) <;> rfl
  · cases o1 FbInstr.underlineToggle <;> cases o2 FbInstr.underlineToggle <;> rfl
  · cases o1 (FbInstr.underlineSet (strContains (pyLower argStr) "true")) <;>
      cases o2 (FbInstr.underlineSet (strContains (pyLower argStr) "true")) <;> rfl
  · dsimp only
    cases o1 (FbInstr.charWidthRatio 0) <;> cases o2 (FbInstr.charWidthRatio 0) <;> rfl
  · cases pyFloatInt argStr with
    | none => rfl
    | some n =>
      dsimp only
      cases o1 (FbInstr.charWidthRatio n) <;> cases o2 (FbInstr.charWidthRatio n) <;> rfl
  · cases o1 (FbInstr.tableRaw argStr) <;> cases o2 (FbInstr.tableRaw argStr) <;> rfl

/-- One scan step recognizes the same instruction under any controller
outcomes. -/
theorem fbStep_fst_instrs (o1 o2 : FbInstr → Option String) (cs : List Char) :
    ((fbStep o1 cs).1).map fbEventInstr = ((fbStep o2 cs).1).map fbEventInstr := by
  unfold fbStep
  cases fbFirstMatch cs with
  | none => rfl
  | some name => exact fbBuildEvents_instrs ..

/-- The scanned instruction sequence of the whole loop is independent of
controller outcomes. -/
theorem fbLoopAux_instrs (o1 o2 : FbInstr → Option String) :
    ∀ (f : Nat) (cs : List Char),
      (fbLoopAux o1 f cs).map fbEventInstr = (fbLoopAux o2 f cs).map fbEventInstr := by
  intro f
  induction f with
  | zero => intro cs; cases cs <;> rfl
  | succ f ih =>
    intro cs
    cases cs with
    | nil => rfl
    | cons c rest =>
      simp only [fbLoopAux, List.map_append]
      rw [fbStep_fst_instrs o1 o2, fbStep_snd_indep o1 o2, ih]

/-- C9: the fallback tokenizer is total and failure-resilient: (i) its
length-fuelled scan is stable under any surplus fuel (each step consumes at
least one character, so the scan of a finite string terminates after at most
its length steps), (ii) the sequence of recognized instructions is the same
whatever exceptions the controller calls raise (per-instruction failures are
logged or swallowed and scanning continues), and (iii) at an unrecognized
character the scan skips exactly one character and continues. -/
theorem fallback_tokenizer_liveness (o o2 : FbInstr → Option String) (script : String) :
    (∀ f, script.toList.length ≤ f →
      fbLoopAux o f script.toList = execute_fallback o script) ∧
    ((execute_fallback o script).map fbEventInstr =
      (execute_fallback o2 script).map fbEventInstr) ∧
    (∀ c rest f, fbFirstMatch (c :: rest) = none →
      fbLoopAux o (f + 1) (c :: rest) = fbLoopAux o f rest) := by
  refine ⟨?_, ?_, ?_⟩
  · intro f hf
    exact fbLoopAux_congr o f script.toList.length script.toList hf (Nat.le_refl _)
  · exact fbLoopAux_instrs o o2 script.toList.length script.toList
  · intro c rest f hm
    simp only [fbLoopAux, fbStep, hm]
    simp

/-- C9 witness: an all-failing controller on a script with a trailing junk
byte: surplus fuel is harmless, the instruction stream matches the
all-succeeding run, and a junk head is skipped one character. -/
theorem fallback_tokenizer_liveness_witness :
    fbLoopAux (fun _ => some "COM error") 25 "insert_paragraph()x".toList =
      execute_fallback (fun _ => some "COM error") "insert_paragraph()x" ∧
    (execute_fallback (fun _ => some "COM error") "insert_paragraph()x").map fbEventInstr =
      (execute_fallback (fun _ => none) "insert_paragraph()x").map fbEventInstr ∧
    fbLoopAux (fun _ => some "COM error") 4 ('x' :: "abc".toList) =
      fbLoopAux (fun _ => some "COM error") 3 "abc".toList :=
  ⟨(fallback_tokenizer_liveness (fun _ => some "COM error") (fun _ => none)
      "insert_paragraph()x").1 25 (by decide),
   (fallback_tokenizer_liveness (fun _ => some "COM error") (fun _ => none)
      "insert_paragraph()x").2.1,
   (fallback_tokenizer_liveness (fun _ => some "COM error") (fun _ => none)
      "insert_paragraph()x").2.2 'x' "abc".toList 3 (by decide)⟩
